import Mathlib

set_option maxRecDepth 8000

/-!
Verification of the eacc-ts SDK (a TypeScript client for the EACC job
marketplace) against its natural-language specification.

The development shallowly embeds the relevant parts of the source:

* byte-level primitives that the SDK gets from `ethers` (keccak-256,
  UTF-8 encoding and decoding, hex encoding and parsing, big-endian
  byte arrays), modelled bit-for-bit over `List Nat` byte lists;
* `CryptoUtils` (`src/utils/crypto.ts`): signature-hash construction,
  message signing payloads, and the XOR encrypt/decrypt pair;
* `IPFSUtils` (`src/utils/ipfs.ts`): the bytes32 hash encoding;
* the network-address table (`src/constants/addresses.ts`) and the
  `EACCClient` constructor and method wrappers (`src/client.ts`);
* the job-lifecycle state machine, which lives in the on-chain contract
  (not in this repository) and is therefore modelled from the spec.

Machine integers are `Nat` with explicit reductions modulo `2 ^ 64` or
`256` where the source (or the EVM word size) truncates.
-/

namespace EaccSpec

/-! ## Byte-list primitives -/

/-- Big-endian value of a byte list: `ethers.getUint` on hex data. -/
def natOfBytesBE (bs : List Nat) : Nat := bs.foldl (fun a b => a * 256 + b) 0

/-- One step of minimal big-endian encoding, driven by explicit fuel so
that the kernel can evaluate it. -/
def bytesOfNatBEAux : Nat → Nat → List Nat
  | 0, _ => []
  | fuel + 1, n => if n = 0 then [] else bytesOfNatBEAux fuel (n / 256) ++ [n % 256]

/-- Minimal big-endian byte encoding of a number; `ethers.toBeArray`
returns exactly this (the empty list for zero). -/
def bytesOfNatBE (n : Nat) : List Nat := bytesOfNatBEAux n n

/-- Fixed-width 32-byte big-endian encoding of a `uint256` word. -/
def beBytes32 (n : Nat) : List Nat :=
  (List.range 32).map (fun i => n / 256 ^ (31 - i) % 256)

/-! ## Keccak-256 (the hash behind `ethers.keccak256`)

The 5-by-5 lane grid is held in a flat 25-field structure, field `a(x + 5*y)`
holding lane `(x, y)`; this keeps every permutation step a straight-line
arithmetic program that the kernel can evaluate quickly. -/

/-- The 1600-bit keccak state: 25 lanes of 64 bits. -/
structure KeccakState where
  (a0 a1 a2 a3 a4 a5 a6 a7 a8 a9 a10 a11 a12 a13 a14 a15 a16 a17 a18 a19 a20 a21 a22 a23 a24 : Nat)
deriving DecidableEq

/-- 64-bit rotate left on a `Nat` holding a keccak lane. -/
def rotl64 (x n : Nat) : Nat :=
  ((x <<< n) % 2 ^ 64) ||| (x >>> (64 - n))

/-- Keccak round constants. -/
def keccakRC : List Nat :=
  [0x0000000000000001, 0x0000000000008082, 0x800000000000808a, 0x8000000080008000,
   0x000000000000808b, 0x0000000080000001, 0x8000000080008081, 0x8000000000008009,
   0x000000000000008a, 0x0000000000000088, 0x0000000080008009, 0x000000008000000a,
   0x000000008000808b, 0x800000000000008b, 0x8000000000008089, 0x8000000000008003,
   0x8000000000008002, 0x8000000000000080, 0x000000000000800a, 0x800000008000000a,
   0x8000000080008081, 0x8000000000008080, 0x0000000080000001, 0x8000000080008008]

/-- One keccak round: theta (`c`, `d`, `t`), rho and pi (`b`, with
`b[y + 5*((2x+3y) % 5)] = rotl t[x+5y] offset[x+5y]` for the standard
rotation-offset table), chi and iota. -/
def keccakRound (s : KeccakState) (rc : Nat) : KeccakState :=
  let c0 := s.a0 ^^^ s.a5 ^^^ s.a10 ^^^ s.a15 ^^^ s.a20
  let c1 := s.a1 ^^^ s.a6 ^^^ s.a11 ^^^ s.a16 ^^^ s.a21
  let c2 := s.a2 ^^^ s.a7 ^^^ s.a12 ^^^ s.a17 ^^^ s.a22
  let c3 := s.a3 ^^^ s.a8 ^^^ s.a13 ^^^ s.a18 ^^^ s.a23
  let c4 := s.a4 ^^^ s.a9 ^^^ s.a14 ^^^ s.a19 ^^^ s.a24
  let d0 := c4 ^^^ rotl64 c1 1
  let d1 := c0 ^^^ rotl64 c2 1
  let d2 := c1 ^^^ rotl64 c3 1
  let d3 := c2 ^^^ rotl64 c4 1
  let d4 := c3 ^^^ rotl64 c0 1
  let t0 := s.a0 ^^^ d0
  let t1 := s.a1 ^^^ d1
  let t2 := s.a2 ^^^ d2
  let t3 := s.a3 ^^^ d3
  let t4 := s.a4 ^^^ d4
  let t5 := s.a5 ^^^ d0
  let t6 := s.a6 ^^^ d1
  let t7 := s.a7 ^^^ d2
  let t8 := s.a8 ^^^ d3
  let t9 := s.a9 ^^^ d4
  let t10 := s.a10 ^^^ d0
  let t11 := s.a11 ^^^ d1
  let t12 := s.a12 ^^^ d2
  let t13 := s.a13 ^^^ d3
  let t14 := s.a14 ^^^ d4
  let t15 := s.a15 ^^^ d0
  let t16 := s.a16 ^^^ d1
  let t17 := s.a17 ^^^ d2
  let t18 := s.a18 ^^^ d3
  let t19 := s.a19 ^^^ d4
  let t20 := s.a20 ^^^ d0
  let t21 := s.a21 ^^^ d1
  let t22 := s.a22 ^^^ d2
  let t23 := s.a23 ^^^ d3
  let t24 := s.a24 ^^^ d4
  let b0 := t0
  let b10 := rotl64 t1 1
  let b20 := rotl64 t2 62
  let b5 := rotl64 t3 28
  let b15 := rotl64 t4 27
  let b16 := rotl64 t5 36
  let b1 := rotl64 t6 44
  let b11 := rotl64 t7 6
  let b21 := rotl64 t8 55
  let b6 := rotl64 t9 20
  let b7 := rotl64 t10 3
  let b17 := rotl64 t11 10
  let b2 := rotl64 t12 43
  let b12 := rotl64 t13 25
  let b22 := rotl64 t14 39
  let b23 := rotl64 t15 41
  let b8 := rotl64 t16 45
  let b18 := rotl64 t17 15
  let b3 := rotl64 t18 21
  let b13 := rotl64 t19 8
  let b14 := rotl64 t20 18
  let b24 := rotl64 t21 2
  let b9 := rotl64 t22 61
  let b19 := rotl64 t23 56
  let b4 := rotl64 t24 14
  let m := 0xffffffffffffffff
  { a0 := (b0 ^^^ ((m ^^^ b1) &&& b2)) ^^^ rc
    a1 := b1 ^^^ ((m ^^^ b2) &&& b3)
    a2 := b2 ^^^ ((m ^^^ b3) &&& b4)
    a3 := b3 ^^^ ((m ^^^ b4) &&& b0)
    a4 := b4 ^^^ ((m ^^^ b0) &&& b1)
    a5 := b5 ^^^ ((m ^^^ b6) &&& b7)
    a6 := b6 ^^^ ((m ^^^ b7) &&& b8)
    a7 := b7 ^^^ ((m ^^^ b8) &&& b9)
    a8 := b8 ^^^ ((m ^^^ b9) &&& b5)
    a9 := b9 ^^^ ((m ^^^ b5) &&& b6)
    a10 := b10 ^^^ ((m ^^^ b11) &&& b12)
    a11 := b11 ^^^ ((m ^^^ b12) &&& b13)
    a12 := b12 ^^^ ((m ^^^ b13) &&& b14)
    a13 := b13 ^^^ ((m ^^^ b14) &&& b10)
    a14 := b14 ^^^ ((m ^^^ b10) &&& b11)
    a15 := b15 ^^^ ((m ^^^ b16) &&& b17)
    a16 := b16 ^^^ ((m ^^^ b17) &&& b18)
    a17 := b17 ^^^ ((m ^^^ b18) &&& b19)
    a18 := b18 ^^^ ((m ^^^ b19) &&& b15)
    a19 := b19 ^^^ ((m ^^^ b15) &&& b16)
    a20 := b20 ^^^ ((m ^^^ b21) &&& b22)
    a21 := b21 ^^^ ((m ^^^ b22) &&& b23)
    a22 := b22 ^^^ ((m ^^^ b23) &&& b24)
    a23 := b23 ^^^ ((m ^^^ b24) &&& b20)
    a24 := b24 ^^^ ((m ^^^ b20) &&& b21) }

/-- The full 24-round keccak-f[1600] permutation. -/
def keccakP (s : KeccakState) : KeccakState := keccakRC.foldl keccakRound s

/-- Little-endian load of 64-bit lane `i` from a 136-byte rate block. -/
def loadLane (bs : List Nat) (i : Nat) : Nat :=
  ((bs.drop (8 * i)).take 8).foldr (fun b acc => b + 256 * acc) 0

/-- Little-endian store of a 64-bit lane to 8 bytes. -/
def storeLane (w : Nat) : List Nat := (List.range 8).map (fun k => w / 256 ^ k % 256)

/-- XOR one 136-byte rate block into the first 17 lanes and permute. -/
def keccakAbsorbBlock (s : KeccakState) (blk : List Nat) : KeccakState :=
  keccakP { s with
    a0 := s.a0 ^^^ loadLane blk 0, a1 := s.a1 ^^^ loadLane blk 1,
    a2 := s.a2 ^^^ loadLane blk 2, a3 := s.a3 ^^^ loadLane blk 3,
    a4 := s.a4 ^^^ loadLane blk 4, a5 := s.a5 ^^^ loadLane blk 5,
    a6 := s.a6 ^^^ loadLane blk 6, a7 := s.a7 ^^^ loadLane blk 7,
    a8 := s.a8 ^^^ loadLane blk 8, a9 := s.a9 ^^^ loadLane blk 9,
    a10 := s.a10 ^^^ loadLane blk 10, a11 := s.a11 ^^^ loadLane blk 11,
    a12 := s.a12 ^^^ loadLane blk 12, a13 := s.a13 ^^^ loadLane blk 13,
    a14 := s.a14 ^^^ loadLane blk 14, a15 := s.a15 ^^^ loadLane blk 15,
    a16 := s.a16 ^^^ loadLane blk 16 }

/-- Multi-rate padding for rate 136: append `0x01 .. 0x80` (or the single
byte `0x81`) so the length becomes a multiple of 136. -/
def keccakPad (bs : List Nat) : List Nat :=
  let padLen := 136 - bs.length % 136
  if padLen = 1 then bs ++ [0x81]
  else bs ++ 0x01 :: List.replicate (padLen - 2) 0 ++ [0x80]

/-- Absorb the padded message block by block (fuel-driven recursion on
the remaining byte count). -/
def keccakAbsorb : Nat → KeccakState → List Nat → KeccakState
  | _, s, [] => s
  | 0, s, _ :: _ => s
  | fuel + 1, s, msg => keccakAbsorb fuel (keccakAbsorbBlock s (msg.take 136)) (msg.drop 136)

/-- The all-zero initial keccak state. -/
def keccakInit : KeccakState := ⟨0, 0, 0, 0, 0, 0, 0, 0, 0, 0, 0, 0, 0, 0, 0, 0, 0, 0, 0, 0, 0, 0, 0, 0, 0⟩

/-- keccak-256 of a byte list: 32 bytes of output, as in `ethers.keccak256`. -/
def keccak256 (bs : List Nat) : List Nat :=
  let padded := keccakPad bs
  let s := keccakAbsorb padded.length keccakInit padded
  storeLane s.a0 ++ storeLane s.a1 ++ storeLane s.a2 ++ storeLane s.a3

/-! ## UTF-8 encoding and decoding (`ethers.toUtf8Bytes` / `ethers.toUtf8String`) -/

/-- UTF-8 encoding of one Unicode scalar value (1 to 4 bytes). -/
def utf8EncodeChar (c : Char) : List Nat :=
  let v := c.toNat
  if v < 0x80 then [v]
  else if v < 0x800 then [0xc0 + v / 64, 0x80 + v % 64]
  else if v < 0x10000 then [0xe0 + v / 4096, 0x80 + v / 64 % 64, 0x80 + v % 64]
  else [0xf0 + v / 262144, 0x80 + v / 4096 % 64, 0x80 + v / 64 % 64, 0x80 + v % 64]

/-- UTF-8 encoding of a character list. -/
def utf8EncodeList : List Char → List Nat
  | [] => []
  | c :: cs => utf8EncodeChar c ++ utf8EncodeList cs

/-- `ethers.toUtf8Bytes`. -/
def utf8Encode (s : String) : List Nat := utf8EncodeList s.data

/-- Validating UTF-8 decoder (fuel-driven so the kernel can evaluate it);
rejects truncated sequences, bad continuation bytes, overlong forms,
surrogates and values above `0x10ffff`, as `ethers.toUtf8String` does. -/
def utf8DecodeAux : Nat → List Nat → Option (List Char)
  | _, [] => some []
  | 0, _ :: _ => none
  | fuel + 1, b :: bs =>
    if b < 0x80 then (utf8DecodeAux fuel bs).map (fun cs => Char.ofNat b :: cs)
    else if b < 0xc0 then none
    else if b < 0xe0 then
      match bs with
      | b1 :: bs1 =>
        if 0x80 ≤ b1 ∧ b1 < 0xc0 then
          let v := (b - 0xc0) * 64 + (b1 - 0x80)
          if 0x80 ≤ v then (utf8DecodeAux fuel bs1).map (fun cs => Char.ofNat v :: cs)
          else none
        else none
      | [] => none
    else if b < 0xf0 then
      match bs with
      | b1 :: b2 :: bs2 =>
        if (0x80 ≤ b1 ∧ b1 < 0xc0) ∧ (0x80 ≤ b2 ∧ b2 < 0xc0) then
          let v := (b - 0xe0) * 4096 + (b1 - 0x80) * 64 + (b2 - 0x80)
          if 0x800 ≤ v ∧ ¬ (0xd800 ≤ v ∧ v < 0xe000) then
            (utf8DecodeAux fuel bs2).map (fun cs => Char.ofNat v :: cs)
          else none
        else none
      | _ => none
    else
      match bs with
      | b1 :: b2 :: b3 :: bs3 =>
        if (0x80 ≤ b1 ∧ b1 < 0xc0) ∧ (0x80 ≤ b2 ∧ b2 < 0xc0) ∧ (0x80 ≤ b3 ∧ b3 < 0xc0) then
          let v := (b - 0xf0) * 262144 + (b1 - 0x80) * 4096 + (b2 - 0x80) * 64 + (b3 - 0x80)
          if 0x10000 ≤ v ∧ v < 0x110000 then
            (utf8DecodeAux fuel bs3).map (fun cs => Char.ofNat v :: cs)
          else none
        else none
      | _ => none

/-- `ethers.toUtf8String`, as an `Option` (the source throws on `none`). -/
def utf8Decode (bs : List Nat) : Option String :=
  (utf8DecodeAux bs.length bs).map (fun cs => ⟨cs⟩)

/-! ## Hex strings (`ethers.hexlify` / `BigInt` hex parsing) -/

/-- The lowercase hex digit for a value below 16. -/
def hexDigitChar : Nat → Char
  | 0 => '0' | 1 => '1' | 2 => '2' | 3 => '3' | 4 => '4' | 5 => '5' | 6 => '6' | 7 => '7'
  | 8 => '8' | 9 => '9' | 10 => 'a' | 11 => 'b' | 12 => 'c' | 13 => 'd' | 14 => 'e'
  | 15 => 'f' | _ => '0'

/-- Two lowercase hex digits per byte. -/
def hexChars : List Nat → List Char
  | [] => []
  | b :: bs => hexDigitChar (b / 16) :: hexDigitChar (b % 16) :: hexChars bs

/-- `ethers.hexlify`: `0x` followed by two lowercase hex digits per byte. -/
def hexlify (bs : List Nat) : String := ⟨'0' :: 'x' :: hexChars bs⟩

/-- Value of one hex digit character (upper or lower case). -/
def hexDigitVal (c : Char) : Option Nat :=
  let v := c.toNat
  if 48 ≤ v ∧ v ≤ 57 then some (v - 48)
  else if 97 ≤ v ∧ v ≤ 102 then some (v - 87)
  else if 65 ≤ v ∧ v ≤ 70 then some (v - 55)
  else none

/-- Accumulating hex parse of a digit list. -/
def parseHexAux : List Char → Nat → Option Nat
  | [], acc => some acc
  | c :: cs, acc =>
    match hexDigitVal c with
    | some d => parseHexAux cs (acc * 16 + d)
    | none => none

/-- JavaScript `BigInt` parsing of a `0x`-prefixed hex string: the digits
may not be empty (`BigInt("0x")` throws). -/
def parseHexNat (s : String) : Option Nat :=
  match s.data with
  | '0' :: 'x' :: ds => if ds = [] then none else parseHexAux ds 0
  | _ => none

/-- `ethers.toBeArray` on a string input: parse the value, then take its
minimal big-endian bytes (leading zero bytes are lost). -/
def toBeArray (s : String) : Except String (List Nat) :=
  match parseHexNat s with
  | some n => .ok (bytesOfNatBE n)
  | none => .error "invalid BigNumberish string"

/-! ## `CryptoUtils` (src/utils/crypto.ts) -/

namespace CryptoUtils

/-- `CryptoUtils.keccak256`: keccak of the UTF-8 bytes of a string,
returned as a hex string. -/
def keccak256 (data : String) : String :=
  hexlify (EaccSpec.keccak256 (utf8Encode data))

/-- One solidity-packed `uint256`: 32 big-endian bytes; `ethers` throws
for out-of-range values. -/
def packUint256 (n : Nat) : Except String (List Nat) :=
  if n < 2 ^ 256 then .ok (beBytes32 n) else .error "value out-of-bounds"

/-- `ethers.solidityPacked` over a list of `uint256` values. -/
def solidityPackedUint256 : List Nat → Except String (List Nat)
  | [] => .ok []
  | n :: ns => do
    let b ← packUint256 n
    let rest ← solidityPackedUint256 ns
    .ok (b ++ rest)

/-- `ethers.solidityPackedKeccak256` over `uint256` values. -/
def solidityPackedKeccak256 (ns : List Nat) : Except String (List Nat) :=
  (solidityPackedUint256 ns).map EaccSpec.keccak256

/-- `CryptoUtils.createJobSignatureHash` before hex printing: the keccak
of the packed pair `(eventsLength, jobId)`. -/
def createJobSignatureHashBytes (eventsLength jobId : Nat) : Except String (List Nat) :=
  solidityPackedKeccak256 [eventsLength, jobId]

/-- `CryptoUtils.createJobSignatureHash`: the hex string the source
returns. -/
def createJobSignatureHash (eventsLength jobId : Nat) : Except String String :=
  (createJobSignatureHashBytes eventsLength jobId).map hexlify

/-- The EIP-191 personal-message payload: prefix, decimal byte count,
message bytes. `ethers` signers hash this payload and sign the digest; a
signer is modelled as an arbitrary function applied to the payload. -/
def eip191Payload (bs : List Nat) : List Nat :=
  utf8Encode "\x19Ethereum Signed Message:\n" ++ utf8Encode (toString bs.length) ++ bs

/-- `Signer.signMessage` on a byte-array message. -/
def signMessageBytes (sign : List Nat → List Nat) (bs : List Nat) : List Nat :=
  sign (eip191Payload bs)

/-- `Signer.signMessage` on a string message: the string's UTF-8 bytes
are the message. -/
def signMessage (sign : List Nat → List Nat) (s : String) : List Nat :=
  signMessageBytes sign (utf8Encode s)

/-- `ethers.hashMessage` of a byte message. -/
def hashMessage (bs : List Nat) : List Nat :=
  EaccSpec.keccak256 (eip191Payload bs)

/-- Payload handed to the signer by `EACCClient.createJobSignature`,
which calls `signer.signMessage(messageHash)` on the hex *string*. -/
def createJobSignaturePayload (eventsLength jobId : Nat) : Except String (List Nat) :=
  (createJobSignatureHash eventsLength jobId).map (fun h => eip191Payload (utf8Encode h))

/-- `EACCClient.createJobSignature` for a connected signer. -/
def clientCreateJobSignature (sign : List Nat → List Nat) (eventsLength jobId : Nat) :
    Except String (List Nat) :=
  (createJobSignatureHash eventsLength jobId).map (fun h => signMessage sign h)

/-- Payload handed to the signer by `CryptoUtils.signJobTaking`, which
calls `signMessage(signer, ethers.toBeArray(hash))` on the raw bytes. -/
def signJobTakingPayload (eventsLength jobId : Nat) : Except String (List Nat) := do
  let h ← createJobSignatureHash eventsLength jobId
  let arr ← toBeArray h
  .ok (eip191Payload arr)

/-- `CryptoUtils.signJobTaking`. -/
def signJobTaking (sign : List Nat → List Nat) (eventsLength jobId : Nat) :
    Except String (List Nat) := do
  let h ← createJobSignatureHash eventsLength jobId
  let arr ← toBeArray h
  .ok (signMessageBytes sign arr)

/-- `CryptoUtils.createJobSignatureMessage`: `ethers.hashMessage` of the
byte-array form of the hash. -/
def createJobSignatureMessage (eventsLength jobId : Nat) : Except String String := do
  let h ← createJobSignatureHash eventsLength jobId
  let arr ← toBeArray h
  .ok (hexlify (hashMessage arr))

/-- Byte `i mod length` of the key stream; JavaScript indexing semantics
make an out-of-range read `undefined`, which XORs as zero. -/
def keyByteAt (key : List Nat) (i : Nat) : Nat :=
  (key[i % key.length]?).getD 0

/-- XOR a byte list against the key stream, starting at index `i`. -/
def xorKeyFrom (key : List Nat) : Nat → List Nat → List Nat
  | _, [] => []
  | i, b :: bs => (b ^^^ keyByteAt key i) :: xorKeyFrom key (i + 1) bs

/-- `CryptoUtils.simpleEncrypt`: XOR the UTF-8 bytes of `data` against
the byte stream of `keccak256(key)` (read through `toBeArray`, which
drops leading zero bytes), then hexlify. -/
def simpleEncrypt (data key : String) : Except String String := do
  let keyBytes ← toBeArray (keccak256 key)
  .ok (hexlify (xorKeyFrom keyBytes 0 (utf8Encode data)))

/-- `CryptoUtils.simpleDecrypt`: `toBeArray` both the ciphertext and the
key hash, XOR, and decode the result as UTF-8. -/
def simpleDecrypt (encryptedData key : String) : Except String String := do
  let dataBytes ← toBeArray encryptedData
  let keyBytes ← toBeArray (keccak256 key)
  match utf8Decode (xorKeyFrom keyBytes 0 dataBytes) with
  | some s => .ok s
  | none => .error "invalid UTF-8 data"

end CryptoUtils

/-! ## `IPFSUtils` (src/utils/ipfs.ts) -/

namespace IPFSUtils

/-- `ethers.encodeBytes32String`: UTF-8 bytes zero-padded to 32 bytes;
more than 31 bytes throw. -/
def encodeBytes32String (text : String) : Except String (List Nat) :=
  let bytes := utf8Encode text
  if bytes.length > 31 then .error "bytes32 string must be less than 32 bytes"
  else .ok (bytes ++ List.replicate (32 - bytes.length) 0)

/-- `ethers.decodeBytes32String`: require 32 bytes and a null terminator,
strip trailing zeros, decode the rest as UTF-8. -/
def decodeBytes32String (bs : List Nat) : Except String String :=
  if bs.length ≠ 32 then .error "invalid bytes32 - not 32 bytes long"
  else if (bs[31]?).getD 0 ≠ 0 then .error "invalid bytes32 string - no null terminator"
  else
    match utf8Decode (((bs.take 31).reverse.dropWhile (· == 0)).reverse) with
    | some s => .ok s
    | none => .error "invalid UTF-8 bytes"

/-- `IPFSUtils.base58ToBuffer`: always throws (no base58 library is
installed; the source says to install `bs58` for production). -/
def base58ToBuffer (_s : String) : Except String (List Nat) :=
  .error "Base58 conversion requires additional library."

/-- `IPFSUtils.bufferToBase58`: always throws, like `base58ToBuffer`. -/
def bufferToBase58 (_bs : List Nat) : Except String String :=
  .error "Base58 conversion requires additional library."

/-- JavaScript `hash.startsWith("Qm")`. -/
def startsWithQm (s : String) : Bool :=
  match s.data with
  | c1 :: c2 :: _ => c1 = 'Q' && c2 = 'm'
  | _ => false

/-- JavaScript `hash.slice(0, 31)`; base58/base32 hashes have no astral
characters, so code units coincide with scalar values. -/
def strSlice31 (s : String) : String := ⟨s.data.take 31⟩

/-- `IPFSUtils.hashToBytes32`. On the `Qm` branch the base58 conversion
always throws, so every input reaches `encodeBytes32String` of its first
31 characters. -/
def hashToBytes32 (hash : String) : Except String (List Nat) :=
  if startsWithQm hash ∧ hash.data.length = 46 then
    match base58ToBuffer hash with
    | .ok buf => .ok (buf.drop (buf.length - 32))
    | .error _ => encodeBytes32String (strSlice31 hash)
  else encodeBytes32String (strSlice31 hash)

/-- The reconstruction branch of `IPFSUtils.bytes32ToHash`: prepend the
SHA-256 multihash prefix `0x1220` and attempt base58 (which always
throws), falling back to the hex string itself. The byte-level guard
`length = 32` is the source's `startsWith('0x') && length === 66` test
on the hex string. -/
def bytes32ToHashFallback (bs : List Nat) : String :=
  if bs.length = 32 then
    match bufferToBase58 (0x12 :: 0x20 :: bs) with
    | .ok s => s
    | .error _ => hexlify bs
  else hexlify bs

/-- `IPFSUtils.bytes32ToHash`. -/
def bytes32ToHash (bs : List Nat) : String :=
  match decodeBytes32String bs with
  | .ok parsed => if parsed.data.length > 0 then parsed else bytes32ToHashFallback bs
  | .error _ => bytes32ToHashFallback bs

/-- One base58 character, the alphabet `[1-9A-HJ-NP-Za-km-z]`, tested on
scalar values exactly as the source regex tests code units. -/
def isBase58Char (c : Char) : Bool :=
  let v := c.toNat
  (0x31 ≤ v && v ≤ 0x39) || (0x41 ≤ v && v ≤ 0x48) || (0x4a ≤ v && v ≤ 0x4e) ||
  (0x50 ≤ v && v ≤ 0x5a) || (0x61 ≤ v && v ≤ 0x6b) || (0x6d ≤ v && v ≤ 0x7a)

/-- One base32 character, the alphabet `[a-z2-7]`. -/
def isBase32Char (c : Char) : Bool :=
  let v := c.toNat
  (0x61 ≤ v && v ≤ 0x7a) || (0x32 ≤ v && v ≤ 0x37)

/-- `IPFSUtils.isValidIPFSHash`: CIDv0 (`Qm` plus 44 base58 characters),
bare CIDv1 (59 base32 characters), or base32 CIDv1 (`b` plus 58). -/
def isValidIPFSHash (h : String) : Bool :=
  (match h.data with
   | c1 :: c2 :: rest => c1 = 'Q' && c2 = 'm' && rest.length = 44 && rest.all isBase58Char
   | _ => false)
  || (h.data.length = 59 && h.data.all isBase32Char)
  || (match h.data with
      | c :: rest => c = 'b' && rest.length = 58 && rest.all isBase32Char
      | _ => false)

end IPFSUtils

/-! ## Network address table (src/constants/addresses.ts) -/

/-- The per-network contract address record. -/
structure NetworkAddresses where
  marketplaceV2 : String
  marketplaceDataV1 : String
  unicrow : String
  unicrowDispute : String
  unicrowArbitrator : String
  eaccToken : String
deriving DecidableEq

/-- The Arbitrum One entry of `NETWORK_ADDRESSES`. -/
def arbitrumOneAddresses : NetworkAddresses where
  marketplaceV2 := "0x405AcFbD1400A168fDd4aDA2D214e8Ae5FF7a624"
  marketplaceDataV1 := "0x0191ae69d05F11C7978cCCa2DE15653BaB509d9a"
  unicrow := "0x0000000000000000000000000000000000000000"
  unicrowDispute := "0x0000000000000000000000000000000000000000"
  unicrowArbitrator := "0x0000000000000000000000000000000000000000"
  eaccToken := "0x9Eeab030a17528eFb2aC0F81D76fab8754e461BD"

/-- `NETWORK_ADDRESSES`: keyed record table; chain 42161 is its only key. -/
def NETWORK_ADDRESSES (chainId : Nat) : Option NetworkAddresses :=
  if chainId = 42161 then some arbitrumOneAddresses else none

/-- `getNetworkAddresses`: throws on a chain id that is not in the table. -/
def getNetworkAddresses (chainId : Nat) : Except String NetworkAddresses :=
  match NETWORK_ADDRESSES chainId with
  | some a => .ok a
  | none => .error ("Unsupported network: " ++ toString chainId)

/-- `SUPPORTED_NETWORKS = Object.keys(NETWORK_ADDRESSES)`. -/
def SUPPORTED_NETWORKS : List Nat := [42161]

/-- `isNetworkSupported`. -/
def isNetworkSupported (chainId : Nat) : Bool := SUPPORTED_NETWORKS.contains chainId

/-! ## `EACCClient` (src/client.ts)

A client is its configuration plus the wallet's optional signer (the
state `checkConnection` inspects). A method is modelled as a function
returning the resulting client together with either a thrown error or
the list of outbound contract calls the method makes. -/

/-- `EACCClientConfig` (the IPFS configuration is irrelevant here). -/
structure EACCClientConfig where
  marketplaceV2Address : String
  marketplaceDataV1Address : String
  chainId : Option Nat
deriving DecidableEq

/-- The client state: configuration and the wallet's signer (an address),
`none` until a `connect*` call succeeds. -/
structure EACCClient where
  config : EACCClientConfig
  signer : Option Nat
deriving DecidableEq

/-- JavaScript truthiness of the optional numeric `chainId`: `undefined`
and `0` are both falsy. -/
def chainIdTruthy : Option Nat → Bool
  | none => false
  | some n => n != 0

/-- The `EACCClient` constructor: throws on a truthy, unsupported
`config.chainId`; the wallet starts unconnected. -/
def mkEACCClient (config : EACCClientConfig) : Except String EACCClient :=
  if chainIdTruthy config.chainId && !(isNetworkSupported ((config.chainId).getD 0)) then
    .error ("Unsupported network: " ++ toString ((config.chainId).getD 0))
  else .ok { config := config, signer := none }

/-- Which external contract a call goes to. -/
inductive CallTarget
  | marketplaceV2
  | marketplaceData
  | ipfs
deriving DecidableEq

/-- An argument forwarded to a contract call. -/
inductive CallArg
  | nat (n : Nat)
  | str (s : String)
  | bool (b : Bool)
  | strList (xs : List String)
  | optNat (n : Option Nat)
deriving DecidableEq

/-- One outbound call: target contract, method name, forwarded args. -/
structure OutboundCall where
  target : CallTarget
  method : String
  args : List CallArg
deriving DecidableEq

/-- Errors a client method can throw locally. -/
inductive ClientError
  | notConnected
deriving DecidableEq

/-- Result of a client method: the client state afterwards, plus either a
thrown error or the outbound calls made. -/
structure OpResult where
  client : EACCClient
  out : Except ClientError (List OutboundCall)

/-- `EACCClient.checkConnection`: throw when the wallet has no signer. -/
def checkConnection (c : EACCClient) : Except ClientError Unit :=
  if c.signer.isSome then .ok () else .error .notConnected

/-- The zero address used for defaulted arbitrators. -/
def ZERO_ADDRESS : String := "0x0000000000000000000000000000000000000000"

/-- `PublishJobParams`. -/
structure PublishJobParams where
  title : String
  contentHash : String
  multipleApplicants : Bool
  tags : List String
  token : String
  amount : Nat
  maxTime : Nat
  deliveryMethod : String
  arbitrator : Option String
  allowedWorkers : Option (List String)
deriving DecidableEq

/-- `UpdateJobParams`. -/
structure UpdateJobParams where
  jobId : Nat
  title : String
  contentHash : String
  tags : List String
  amount : Nat
  maxTime : Nat
  arbitrator : Option String
  whitelistWorkers : Bool
deriving DecidableEq

namespace EACCClient

/-- `EACCClient.registerUser`. -/
def registerUser (c : EACCClient) (pubkey name bio avatar : String) : OpResult :=
  { client := c
    out := (checkConnection c).map (fun _ =>
      [⟨.marketplaceData, "registerUser", [.str pubkey, .str name, .str bio, .str avatar]⟩]) }

/-- `EACCClient.publishJob`. -/
def publishJob (c : EACCClient) (params : PublishJobParams) : OpResult :=
  { client := c
    out := (checkConnection c).map (fun _ =>
      [⟨.marketplaceV2, "publishJobPost",
        [.str params.title, .str params.contentHash, .bool params.multipleApplicants,
         .strList params.tags, .str params.token, .nat params.amount, .nat params.maxTime,
         .str params.deliveryMethod, .str (params.arbitrator.getD ZERO_ADDRESS),
         .strList (params.allowedWorkers.getD [])]⟩]) }

/-- `EACCClient.updateJob`. -/
def updateJob (c : EACCClient) (params : UpdateJobParams) : OpResult :=
  { client := c
    out := (checkConnection c).map (fun _ =>
      [⟨.marketplaceV2, "updateJobPost",
        [.nat params.jobId, .str params.title, .str params.contentHash, .strList params.tags,
         .nat params.amount, .nat params.maxTime, .str (params.arbitrator.getD ZERO_ADDRESS),
         .bool params.whitelistWorkers]⟩]) }

/-- `EACCClient.closeJob`. -/
def closeJob (c : EACCClient) (jobId : Nat) : OpResult :=
  { client := c
    out := (checkConnection c).map (fun _ => [⟨.marketplaceV2, "closeJob", [.nat jobId]⟩]) }

/-- `EACCClient.reopenJob`. -/
def reopenJob (c : EACCClient) (jobId : Nat) : OpResult :=
  { client := c
    out := (checkConnection c).map (fun _ => [⟨.marketplaceV2, "reopenJob", [.nat jobId]⟩]) }

/-- `EACCClient.withdrawCollateral`. -/
def withdrawCollateral (c : EACCClient) (jobId : Nat) : OpResult :=
  { client := c
    out := (checkConnection c).map (fun _ =>
      [⟨.marketplaceV2, "withdrawCollateral", [.nat jobId]⟩]) }

/-- `EACCClient.updateJobWhitelist`. -/
def updateJobWhitelist (c : EACCClient) (jobId : Nat) (allowed disallowed : List String) :
    OpResult :=
  { client := c
    out := (checkConnection c).map (fun _ =>
      [⟨.marketplaceV2, "updateJobWhitelist",
        [.nat jobId, .strList allowed, .strList disallowed]⟩]) }

/-- `EACCClient.takeJob`. -/
def takeJob (c : EACCClient) (jobId : Nat) (signature : String) : OpResult :=
  { client := c
    out := (checkConnection c).map (fun _ =>
      [⟨.marketplaceV2, "takeJob", [.nat jobId, .str signature]⟩]) }

/-- `EACCClient.payStartJob`. -/
def payStartJob (c : EACCClient) (jobId : Nat) (worker : String) (value : Option Nat) :
    OpResult :=
  { client := c
    out := (checkConnection c).map (fun _ =>
      [⟨.marketplaceV2, "payStartJob", [.nat jobId, .str worker, .optNat value]⟩]) }

/-- `EACCClient.deliverResult`. -/
def deliverResult (c : EACCClient) (jobId : Nat) (resultHash : String) : OpResult :=
  { client := c
    out := (checkConnection c).map (fun _ =>
      [⟨.marketplaceV2, "deliverResult", [.nat jobId, .str resultHash]⟩]) }

/-- `EACCClient.approveResult`. -/
def approveResult (c : EACCClient) (jobId : Nat) (reviewRating : Nat) (reviewText : String) :
    OpResult :=
  { client := c
    out := (checkConnection c).map (fun _ =>
      [⟨.marketplaceV2, "approveResult", [.nat jobId, .nat reviewRating, .str reviewText]⟩]) }

/-- `EACCClient.refund`. -/
def refund (c : EACCClient) (jobId : Nat) : OpResult :=
  { client := c
    out := (checkConnection c).map (fun _ => [⟨.marketplaceV2, "refund", [.nat jobId]⟩]) }

/-- `EACCClient.review`. -/
def review (c : EACCClient) (jobId : Nat) (reviewRating : Nat) (reviewText : String) :
    OpResult :=
  { client := c
    out := (checkConnection c).map (fun _ =>
      [⟨.marketplaceV2, "review", [.nat jobId, .nat reviewRating, .str reviewText]⟩]) }

/-- `EACCClient.dispute`. -/
def dispute (c : EACCClient) (jobId : Nat) (sessionKey content : String) : OpResult :=
  { client := c
    out := (checkConnection c).map (fun _ =>
      [⟨.marketplaceV2, "dispute", [.nat jobId, .str sessionKey, .str content]⟩]) }

/-- `EACCClient.arbitrate`. -/
def arbitrate (c : EACCClient) (jobId buyerShare workerShare : Nat) (reasonHash : String) :
    OpResult :=
  { client := c
    out := (checkConnection c).map (fun _ =>
      [⟨.marketplaceV2, "arbitrate",
        [.nat jobId, .nat buyerShare, .nat workerShare, .str reasonHash]⟩]) }

/-- `EACCClient.refuseArbitration`. -/
def refuseArbitration (c : EACCClient) (jobId : Nat) : OpResult :=
  { client := c
    out := (checkConnection c).map (fun _ =>
      [⟨.marketplaceV2, "refuseArbitration", [.nat jobId]⟩]) }

/-- `EACCClient.postMessage`. -/
def postMessage (c : EACCClient) (jobId : Nat) (contentHash recipient : String) : OpResult :=
  { client := c
    out := (checkConnection c).map (fun _ =>
      [⟨.marketplaceV2, "postThreadMessage", [.nat jobId, .str contentHash, .str recipient]⟩]) }

/-- `EACCClient.getJob`: read accessor, no connection check. -/
def getJob (c : EACCClient) (jobId : Nat) : OpResult :=
  { client := c, out := .ok [⟨.marketplaceV2, "getJob", [.nat jobId]⟩] }

/-- `EACCClient.getJobs`: read accessor (served by the data contract). -/
def getJobs (c : EACCClient) (index limit : Nat) : OpResult :=
  { client := c, out := .ok [⟨.marketplaceData, "getJobs", [.nat index, .nat limit]⟩] }

/-- `EACCClient.getUser`: read accessor. -/
def getUser (c : EACCClient) (address : String) : OpResult :=
  { client := c, out := .ok [⟨.marketplaceData, "getUser", [.str address]⟩] }

/-- `EACCClient.getArbitrator`: read accessor. -/
def getArbitrator (c : EACCClient) (address : String) : OpResult :=
  { client := c, out := .ok [⟨.marketplaceData, "getArbitrator", [.str address]⟩] }

/-- `EACCClient.getEvents`: read accessor. -/
def getEvents (c : EACCClient) (jobId index limit : Nat) : OpResult :=
  { client := c, out := .ok [⟨.marketplaceData, "getEvents", [.nat jobId, .nat index, .nat limit]⟩] }

end EACCClient

/-! ## Job lifecycle state machine

The state machine that decides `Take` lives in the on-chain
`MarketplaceV2` contract; this repository only carries its ABI
declaration and call wrappers. The definitions below are therefore
modelled from the spec, not translated from source. -/

namespace JobLifecycle

/-- The three job states of the spec's transition table. -/
inductive JState
  | Open
  | Taken
  | Closed
deriving DecidableEq

/-- The caller's role with respect to a job. -/
inductive Role
  | creator
  | worker
  | arbitrator
  | other
deriving DecidableEq

/-- The lifecycle events of the spec's transition table. -/
inductive MEventKind
  | take
  | deliver
  | approve
  | refund
  | dispute
  | arbitrate
  | refuseArbitration
  | close
  | reopen
deriving DecidableEq

/-- Modelled from the spec: lifecycle errors. `invalidTransition` carries
the offending (state, event, caller-role) triple the spec requires;
`staleSignature` is the anti-replay rejection; `badSignature` covers a
signature whose payload or signer does not match. -/
inductive MError
  | invalidTransition (state : JState) (event : MEventKind) (role : Role)
  | staleSignature
  | badSignature
deriving DecidableEq

/-- Modelled from the spec: the job fields the transition table reads and
writes. Addresses are numbers. -/
structure MJob where
  id : Nat
  state : JState
  creator : Nat
  worker : Option Nat
  arbitrator : Option Nat
  whitelistWorkers : Bool
  multipleApplicants : Bool
  whitelist : List Nat
  disputed : Bool
  eventsLength : Nat
  escrowId : Option Nat
  resultHash : Option Nat
  rating : Nat
deriving DecidableEq

/-- The caller's role for a job. -/
def roleOf (j : MJob) (caller : Nat) : Role :=
  if caller = j.creator then .creator
  else if j.worker = some caller then .worker
  else if j.arbitrator = some caller then .arbitrator
  else .other

/-- Modelled from the spec: the signature submitted with `Take` binds the
pair `(eventsLength, jobId)` under the signer's key, so it is modelled
as that triple. -/
structure TakeSignature where
  signedEventsLength : Nat
  signedJobId : Nat
  signer : Nat
deriving DecidableEq

/-- Modelled from the spec: `MarketplaceV2.takeJob`. Following the
transition table, a `Take` from a state other than `Open`, by the
creator, or by a non-whitelisted caller on a gated job fails with
`InvalidTransition`; then a signature whose signed events-length does
not match the job's current events-length fails with `StaleSignature`;
then a signature not over this job by this caller fails as a bad
signature; otherwise the job becomes `Taken` by the caller with an
escrow assigned and the event appended. -/
def takeJob (j : MJob) (caller : Nat) (sig : TakeSignature) : Except MError MJob :=
  if j.state ≠ .Open then .error (.invalidTransition j.state .take (roleOf j caller))
  else if caller = j.creator then .error (.invalidTransition j.state .take .creator)
  else if j.whitelistWorkers && !(j.whitelist.contains caller) then
    .error (.invalidTransition j.state .take (roleOf j caller))
  else if sig.signedEventsLength ≠ j.eventsLength then .error .staleSignature
  else if sig.signedJobId ≠ j.id || sig.signer ≠ caller then .error .badSignature
  else .ok { j with
    state := .Taken
    worker := some caller
    escrowId := some j.id
    eventsLength := j.eventsLength + 1 }

/-- Modelled from the spec: the event variants a job's event log holds,
with the payloads the fold needs. -/
inductive MEvent
  | taken (worker : Nat)
  | delivered (resultHash : Nat)
  | approved (rating : Nat)
  | refunded
  | disputed
  | arbitrated
  | arbitrationRefused
  | closed
  | reopened
  | whitelistedWorkerAdded (address : Nat)
  | whitelistedWorkerRemoved (address : Nat)
deriving DecidableEq

/-- Modelled from the spec: fold one event into the materialized job
view, applying the effect column of the transition table; an event that
does not apply in the current state leaves the job unchanged. -/
def applyEvent (j : MJob) (e : MEvent) : MJob :=
  match e with
  | .taken w =>
    if j.state = .Open then
      { j with state := .Taken, worker := some w, escrowId := some j.id,
               eventsLength := j.eventsLength + 1 }
    else { j with eventsLength := j.eventsLength + 1 }
  | .delivered h =>
    if j.state = .Taken then
      { j with resultHash := some h, eventsLength := j.eventsLength + 1 }
    else { j with eventsLength := j.eventsLength + 1 }
  | .approved r =>
    if j.state = .Taken ∧ j.resultHash ≠ none then
      { j with state := .Closed, rating := r, eventsLength := j.eventsLength + 1 }
    else { j with eventsLength := j.eventsLength + 1 }
  | .refunded =>
    if j.state = .Taken then
      { j with state := .Open, worker := none,
               whitelist := j.whitelist.filter (fun a => !(j.worker = some a)),
               eventsLength := j.eventsLength + 1 }
    else { j with eventsLength := j.eventsLength + 1 }
  | .disputed =>
    if j.state = .Taken then
      { j with disputed := true, eventsLength := j.eventsLength + 1 }
    else { j with eventsLength := j.eventsLength + 1 }
  | .arbitrated =>
    if j.state = .Taken ∧ j.disputed then
      { j with disputed := false, state := .Closed, eventsLength := j.eventsLength + 1 }
    else { j with eventsLength := j.eventsLength + 1 }
  | .arbitrationRefused =>
    if j.state = .Taken ∧ j.disputed then
      { j with disputed := false, eventsLength := j.eventsLength + 1 }
    else { j with eventsLength := j.eventsLength + 1 }
  | .closed =>
    if j.state = .Open then
      { j with state := .Closed, eventsLength := j.eventsLength + 1 }
    else { j with eventsLength := j.eventsLength + 1 }
  | .reopened =>
    if j.state = .Closed ∧ j.worker = none then
      { j with state := .Open, eventsLength := j.eventsLength + 1 }
    else { j with eventsLength := j.eventsLength + 1 }
  | .whitelistedWorkerAdded a =>
    { j with whitelist := j.whitelist ++ [a], eventsLength := j.eventsLength + 1 }
  | .whitelistedWorkerRemoved a =>
    { j with whitelist := j.whitelist.filter (fun x => x ≠ a),
             eventsLength := j.eventsLength + 1 }

/-- Modelled from the spec: derive the materialized job view by folding
the event sequence in order. -/
def replayJob (j : MJob) (events : List MEvent) : MJob :=
  events.foldl applyEvent j

/-- A freshly created open job, used to exercise the fold. -/
def sampleOpenJob : MJob where
  id := 1
  state := .Open
  creator := 100
  worker := none
  arbitrator := none
  whitelistWorkers := false
  multipleApplicants := true
  whitelist := []
  disputed := false
  eventsLength := 0
  escrowId := none
  resultHash := none
  rating := 0

end JobLifecycle

deriving instance DecidableEq for Except

/-- The key stream `simpleEncrypt`/`simpleDecrypt` actually XOR with:
`toBeArray` applied to the hex keccak of the key, so the hash bytes with
leading zero bytes stripped. -/
def keyStreamOf (key : String) : List Nat :=
  bytesOfNatBE (natOfBytesBE (keccak256 (utf8Encode key)))

/-- The frame property of one client method result: the client's own
state is unchanged and, when connected, exactly one outbound call is
made, and not to the content store. -/
def singleLedgerCall (c : EACCClient) (r : OpResult) : Prop :=
  r.client = c ∧ ∃ call : OutboundCall, call.target ≠ CallTarget.ipfs ∧
    r.out = (if c.signer.isSome then .ok [call] else .error .notConnected)

/-! ## Lemmas about big-endian byte encoding -/

theorem bytesOfNatBEAux_zero (f : Nat) : bytesOfNatBEAux f 0 = [] := by
  cases f <;> simp [bytesOfNatBEAux]

theorem bytesOfNatBEAux_fuel (f1 : Nat) : ∀ n f2 : Nat, n ≤ f1 → n ≤ f2 →
    bytesOfNatBEAux f1 n = bytesOfNatBEAux f2 n := by
  induction f1 with
  | zero =>
    intro n f2 h1 _
    have : n = 0 := Nat.le_zero.mp h1
    subst this
    exact (bytesOfNatBEAux_zero 0).trans (bytesOfNatBEAux_zero f2).symm
  | succ g ih =>
    intro n f2 h1 h2
    rcases Nat.eq_zero_or_pos n with hn | hn
    · subst hn
      exact (bytesOfNatBEAux_zero (g + 1)).trans (bytesOfNatBEAux_zero f2).symm
    · cases f2 with
      | zero => omega
      | succ h =>
        have hne : n ≠ 0 := Nat.pos_iff_ne_zero.mp hn
        have hdiv : n / 256 < n := Nat.div_lt_self hn (by omega)
        simp only [bytesOfNatBEAux, if_neg hne]
        rw [ih (n / 256) h (by omega) (by omega)]

theorem bytesOfNatBE_eq {n : Nat} (h : n ≠ 0) :
    bytesOfNatBE n = bytesOfNatBE (n / 256) ++ [n % 256] := by
  have hpos : 0 < n := Nat.pos_iff_ne_zero.mpr h
  have hdiv : n / 256 < n := Nat.div_lt_self hpos (by omega)
  cases n with
  | zero => omega
  | succ m =>
    show bytesOfNatBEAux (m + 1) ((m : Nat) + 1) = _
    simp only [bytesOfNatBEAux, if_neg h]
    rw [bytesOfNatBEAux_fuel m ((m + 1) / 256) ((m + 1) / 256) (by omega) (Nat.le_refl _)]
    rfl

theorem natOfBytesBE_acc (bs : List Nat) : ∀ acc : Nat,
    bs.foldl (fun a b => a * 256 + b) acc = acc * 256 ^ bs.length + natOfBytesBE bs := by
  induction bs with
  | nil => intro acc; simp [natOfBytesBE]
  | cons b rest ih =>
    intro acc
    show List.foldl _ (acc * 256 + b) rest = _
    rw [ih (acc * 256 + b)]
    show _ = acc * 256 ^ (rest.length + 1) + List.foldl _ (0 * 256 + b) rest
    rw [ih (0 * 256 + b)]
    ring

theorem natOfBytesBE_append (bs : List Nat) (b : Nat) :
    natOfBytesBE (bs ++ [b]) = 256 * natOfBytesBE bs + b := by
  show (bs ++ [b]).foldl (fun a b => a * 256 + b) 0 = _
  rw [List.foldl_append]
  show natOfBytesBE bs * 256 + b = _
  ring

theorem natOfBytesBE_pos {bs : List Nat} (hne : bs ≠ []) (h0 : bs.headD 0 ≠ 0) :
    0 < natOfBytesBE bs := by
  cases bs with
  | nil => exact absurd rfl hne
  | cons b rest =>
    have hb : 0 < b := by simpa using Nat.pos_iff_ne_zero.mpr (by simpa using h0)
    show 0 < List.foldl _ 0 (b :: rest)
    show 0 < List.foldl _ (0 * 256 + b) rest
    rw [natOfBytesBE_acc]
    have : 0 < (0 * 256 + b) * 256 ^ rest.length := by positivity
    omega

theorem bytesOfNatBE_natOfBytesBE (bs : List Nat) (hne : bs ≠ [])
    (h0 : bs.headD 0 ≠ 0) (hlt : ∀ b ∈ bs, b < 256) :
    bytesOfNatBE (natOfBytesBE bs) = bs := by
  induction bs using List.reverseRecOn with
  | nil => exact absurd rfl hne
  | append_singleton front b ih =>
    rw [natOfBytesBE_append]
    have hb : b < 256 := hlt b (by simp)
    cases front with
    | nil =>
      have hb0 : b ≠ 0 := by simpa [natOfBytesBE] using h0
      rw [show (256 : Nat) * natOfBytesBE [] + b = b by simp [natOfBytesBE]]
      rw [bytesOfNatBE_eq hb0]
      rw [Nat.div_eq_of_lt hb, Nat.mod_eq_of_lt hb]
      simp [bytesOfNatBE, bytesOfNatBEAux]
    | cons f rest =>
      have hfront : (f :: rest) ≠ [] := by simp
      have hhead : (f :: rest).headD 0 ≠ 0 := by
        simpa using h0
      have hpos : 0 < natOfBytesBE (f :: rest) := natOfBytesBE_pos hfront hhead
      have hn0 : 256 * natOfBytesBE (f :: rest) + b ≠ 0 := by omega
      rw [bytesOfNatBE_eq hn0]
      have hdiv : (256 * natOfBytesBE (f :: rest) + b) / 256 = natOfBytesBE (f :: rest) := by
        omega
      have hmod : (256 * natOfBytesBE (f :: rest) + b) % 256 = b := by
        omega
      rw [hdiv, hmod, ih hfront hhead (fun x hx => hlt x (by
        simp only [List.cons_append, List.mem_cons, List.mem_append] at hx ⊢
        tauto))]

theorem bytesOfNatBE_mem_lt {n b : Nat} (h : b ∈ bytesOfNatBE n) : b < 256 := by
  suffices H : ∀ f m b, b ∈ bytesOfNatBEAux f m → b < 256 from H n n b h
  intro f
  induction f with
  | zero => intro m b h; simp [bytesOfNatBEAux] at h
  | succ g ih =>
    intro m b h
    by_cases hm : m = 0
    · simp [bytesOfNatBEAux, hm] at h
    · simp only [bytesOfNatBEAux, if_neg hm, List.mem_append, List.mem_singleton] at h
      rcases h with h | h
      · exact ih _ _ h
      · subst h; exact Nat.mod_lt _ (by omega)

/-! ## Lemmas about hex printing and parsing -/

theorem hexDigitVal_hexDigitChar : ∀ n, n < 16 → hexDigitVal (hexDigitChar n) = some n := by
  decide

theorem hexChars_ne_nil {bs : List Nat} (h : bs ≠ []) : hexChars bs ≠ [] := by
  cases bs with
  | nil => exact absurd rfl h
  | cons b rest => simp [hexChars]

theorem hexChars_length (bs : List Nat) : (hexChars bs).length = 2 * bs.length := by
  induction bs with
  | nil => simp [hexChars]
  | cons b rest ih => simp [hexChars, ih]; ring

theorem parseHexAux_hexChars (bs : List Nat) (hlt : ∀ b ∈ bs, b < 256) : ∀ acc : Nat,
    parseHexAux (hexChars bs) acc = some (bs.foldl (fun a b => a * 256 + b) acc) := by
  induction bs with
  | nil => intro acc; simp [hexChars, parseHexAux]
  | cons b rest ih =>
    intro acc
    have hb : b < 256 := hlt b (by simp)
    have hhi : b / 16 < 16 := by omega
    have hlo : b % 16 < 16 := by omega
    simp only [hexChars, parseHexAux, hexDigitVal_hexDigitChar _ hhi,
      hexDigitVal_hexDigitChar _ hlo]
    rw [ih (fun x hx => hlt x (by simp [hx]))]
    have : (acc * 16 + b / 16) * 16 + b % 16 = acc * 256 + b := by omega
    rw [this]
    rfl

theorem parseHexNat_hexlify (bs : List Nat) (hne : bs ≠ []) (hlt : ∀ b ∈ bs, b < 256) :
    parseHexNat (hexlify bs) = some (natOfBytesBE bs) := by
  show parseHexNat ⟨'0' :: 'x' :: hexChars bs⟩ = _
  simp only [parseHexNat, if_neg (hexChars_ne_nil hne)]
  exact parseHexAux_hexChars bs hlt 0

theorem toBeArray_hexlify (bs : List Nat) (hne : bs ≠ []) (h0 : bs.headD 0 ≠ 0)
    (hlt : ∀ b ∈ bs, b < 256) : toBeArray (hexlify bs) = .ok bs := by
  simp only [toBeArray, parseHexNat_hexlify bs hne hlt]
  rw [bytesOfNatBE_natOfBytesBE bs hne h0 hlt]

theorem toBeArray_hexlify_strip (bs : List Nat) (hne : bs ≠ []) (hlt : ∀ b ∈ bs, b < 256) :
    toBeArray (hexlify bs) = .ok (bytesOfNatBE (natOfBytesBE bs)) := by
  simp only [toBeArray, parseHexNat_hexlify bs hne hlt]

/-! ## Lemmas about UTF-8 -/

theorem char_toNat_lt (c : Char) : c.toNat < 1114112 := by
  rcases c.valid with h | h
  · exact Nat.lt_trans h (by norm_num)
  · exact h.2

theorem char_toNat_not_surrogate (c : Char) : c.toNat < 55296 ∨ 57343 < c.toNat := by
  rcases c.valid with h | h
  · exact Or.inl h
  · exact Or.inr h.1

theorem utf8EncodeChar_length_pos (c : Char) : 0 < (utf8EncodeChar c).length := by
  simp only [utf8EncodeChar]
  split_ifs <;> simp

theorem utf8EncodeList_length (cs : List Char) : cs.length ≤ (utf8EncodeList cs).length := by
  induction cs with
  | nil => simp [utf8EncodeList]
  | cons c rest ih =>
    have := utf8EncodeChar_length_pos c
    simp only [utf8EncodeList, List.length_append, List.length_cons]
    omega

theorem utf8EncodeChar_mem_lt {c : Char} {b : Nat} (h : b ∈ utf8EncodeChar c) : b < 256 := by
  have hv := char_toNat_lt c
  simp only [utf8EncodeChar] at h
  split_ifs at h <;> simp only [List.mem_cons, List.mem_singleton, List.not_mem_nil] at h <;>
    rcases h with h | h | h | h | h <;> first
      | omega
      | (subst h; omega)
      | exact absurd h (by simp)

theorem utf8EncodeList_mem_lt {cs : List Char} {b : Nat} (h : b ∈ utf8EncodeList cs) : b < 256 := by
  induction cs with
  | nil => simp [utf8EncodeList] at h
  | cons c rest ih =>
    simp only [utf8EncodeList, List.mem_append] at h
    rcases h with h | h
    · exact utf8EncodeChar_mem_lt h
    · exact ih h

theorem utf8EncodeChar_ascii {c : Char} (h : c.toNat < 128) : utf8EncodeChar c = [c.toNat] := by
  simp [utf8EncodeChar, h]

theorem utf8EncodeList_ascii (cs : List Char) (h : ∀ c ∈ cs, c.toNat < 128) :
    utf8EncodeList cs = cs.map Char.toNat := by
  induction cs with
  | nil => simp [utf8EncodeList]
  | cons c rest ih =>
    simp only [utf8EncodeList, List.map_cons]
    rw [utf8EncodeChar_ascii (h c (by simp))]
    rw [ih (fun x hx => h x (by simp [hx]))]
    rfl

theorem utf8DecodeAux_encodeChar (fuel : Nat) (c : Char) (rest : List Nat) :
    utf8DecodeAux (fuel + 1) (utf8EncodeChar c ++ rest) =
      (utf8DecodeAux fuel rest).map (fun cs => c :: cs) := by
  have hlt := char_toNat_lt c
  have hsur := char_toNat_not_surrogate c
  by_cases h1 : c.toNat < 0x80
  · rw [utf8EncodeChar_ascii h1]
    simp only [List.cons_append, List.nil_append, utf8DecodeAux, if_pos h1,
      Char.ofNat_toNat]
    rfl
  · by_cases h2 : c.toNat < 0x800
    · have he : utf8EncodeChar c = [0xc0 + c.toNat / 64, 0x80 + c.toNat % 64] := by
        simp [utf8EncodeChar, h1, h2]
      rw [he]
      simp only [List.cons_append, List.nil_append, utf8DecodeAux]
      rw [if_neg (by omega), if_neg (by omega), if_pos (by omega)]
      simp only [List.append_eq, List.cons_append, List.nil_append]
      rw [if_pos (by constructor <;> omega)]
      rw [if_pos (by omega)]
      have hval : (0xc0 + c.toNat / 64 - 0xc0) * 64 + (0x80 + c.toNat % 64 - 0x80) = c.toNat := by
        omega
      rw [hval, Char.ofNat_toNat]
    · by_cases h3 : c.toNat < 0x10000
      · have he : utf8EncodeChar c =
            [0xe0 + c.toNat / 4096, 0x80 + c.toNat / 64 % 64, 0x80 + c.toNat % 64] := by
          simp [utf8EncodeChar, h1, h2, h3]
        rw [he]
        simp only [List.cons_append, List.nil_append, utf8DecodeAux]
        rw [if_neg (by omega), if_neg (by omega), if_neg (by omega), if_pos (by omega)]
        simp only [List.append_eq, List.cons_append, List.nil_append]
        rw [if_pos (by refine ⟨⟨by omega, by omega⟩, by omega, by omega⟩)]
        rw [if_pos (by constructor <;> omega)]
        have hval : (0xe0 + c.toNat / 4096 - 0xe0) * 4096 +
            (0x80 + c.toNat / 64 % 64 - 0x80) * 64 + (0x80 + c.toNat % 64 - 0x80) = c.toNat := by
          omega
        rw [hval, Char.ofNat_toNat]
      · have he : utf8EncodeChar c =
            [0xf0 + c.toNat / 262144, 0x80 + c.toNat / 4096 % 64,
             0x80 + c.toNat / 64 % 64, 0x80 + c.toNat % 64] := by
          simp [utf8EncodeChar, h1, h2, h3]
        rw [he]
        simp only [List.cons_append, List.nil_append, utf8DecodeAux]
        rw [if_neg (by omega), if_neg (by omega), if_neg (by omega), if_neg (by omega)]
        simp only [List.append_eq, List.cons_append, List.nil_append]
        rw [if_pos (by refine ⟨⟨by omega, by omega⟩, ⟨by omega, by omega⟩, by omega, by omega⟩)]
        rw [if_pos (by constructor <;> omega)]
        have hval : (0xf0 + c.toNat / 262144 - 0xf0) * 262144 +
            (0x80 + c.toNat / 4096 % 64 - 0x80) * 4096 +
            (0x80 + c.toNat / 64 % 64 - 0x80) * 64 + (0x80 + c.toNat % 64 - 0x80) = c.toNat := by
          omega
        rw [hval, Char.ofNat_toNat]

theorem utf8DecodeAux_encodeList (cs : List Char) : ∀ fuel : Nat, cs.length ≤ fuel →
    utf8DecodeAux fuel (utf8EncodeList cs) = some cs := by
  induction cs with
  | nil =>
    intro fuel _
    cases fuel <;> simp [utf8EncodeList, utf8DecodeAux]
  | cons c rest ih =>
    intro fuel h
    cases fuel with
    | zero => simp at h
    | succ f =>
      show utf8DecodeAux (f + 1) (utf8EncodeChar c ++ utf8EncodeList rest) = _
      rw [utf8DecodeAux_encodeChar f c (utf8EncodeList rest)]
      rw [ih f (by simpa using h)]
      rfl

theorem utf8Decode_utf8Encode (s : String) : utf8Decode (utf8Encode s) = some s := by
  obtain ⟨data⟩ := s
  show (utf8DecodeAux (utf8EncodeList data).length (utf8EncodeList data)).map _ = _
  rw [utf8DecodeAux_encodeList data (utf8EncodeList data).length (utf8EncodeList_length data)]
  rfl

/-! ## Lemmas about keccak output, payload lengths, XOR streams -/

theorem storeLane_length (w : Nat) : (storeLane w).length = 8 := by
  simp [storeLane]

theorem keccak256_length (bs : List Nat) : (keccak256 bs).length = 32 := by
  simp [keccak256, storeLane_length]

theorem storeLane_mem_lt {w b : Nat} (h : b ∈ storeLane w) : b < 256 := by
  simp only [storeLane, List.mem_map, List.mem_range] at h
  obtain ⟨k, _, rfl⟩ := h
  exact Nat.mod_lt _ (by omega)

theorem keccak256_mem_lt {bs : List Nat} {b : Nat} (h : b ∈ keccak256 bs) : b < 256 := by
  simp only [keccak256, List.mem_append] at h
  rcases h with ((h | h) | h) | h <;> exact storeLane_mem_lt h

theorem keccak256_ne_nil (bs : List Nat) : keccak256 bs ≠ [] := by
  intro h
  have := keccak256_length bs
  rw [h] at this
  simp at this

theorem natOfBytesBE_lt (bs : List Nat) (hlt : ∀ b ∈ bs, b < 256) :
    natOfBytesBE bs < 256 ^ bs.length := by
  induction bs using List.reverseRecOn with
  | nil => simp [natOfBytesBE]
  | append_singleton front b ih =>
    rw [natOfBytesBE_append]
    have hb : b < 256 := hlt b (by simp)
    have hf : natOfBytesBE front < 256 ^ front.length :=
      ih (fun x hx => hlt x (by simp [hx]))
    have hlen : (front ++ [b]).length = front.length + 1 := by simp
    rw [hlen, pow_succ]
    have hp : (0:Nat) < 256 ^ front.length := by positivity
    omega

theorem bytesOfNatBE_length_le : ∀ (k n : Nat), n < 256 ^ k → (bytesOfNatBE n).length ≤ k := by
  intro k
  induction k with
  | zero =>
    intro n h
    have : n = 0 := by simpa using h
    subst this
    simp [bytesOfNatBE, bytesOfNatBEAux_zero]
  | succ j ih =>
    intro n h
    by_cases hn : n = 0
    · subst hn; simp [bytesOfNatBE, bytesOfNatBEAux_zero]
    · rw [bytesOfNatBE_eq hn]
      have hdiv : n / 256 < 256 ^ j := by
        rw [Nat.div_lt_iff_lt_mul (by omega)]
        calc n < 256 ^ (j + 1) := h
        _ = 256 ^ j * 256 := by rw [pow_succ]
      have := ih (n / 256) hdiv
      simp only [List.length_append, List.length_cons, List.length_nil]
      omega

theorem hexDigitChar_ascii (n : Nat) : (hexDigitChar n).toNat < 128 := by
  unfold hexDigitChar
  split <;> decide

theorem hexChars_ascii (bs : List Nat) : ∀ c ∈ hexChars bs, c.toNat < 128 := by
  induction bs with
  | nil => simp [hexChars]
  | cons b rest ih =>
    intro c hc
    simp only [hexChars, List.mem_cons] at hc
    rcases hc with rfl | rfl | hc
    · exact hexDigitChar_ascii _
    · exact hexDigitChar_ascii _
    · exact ih c hc

theorem utf8Encode_hexlify_length (bs : List Nat) :
    (utf8Encode (hexlify bs)).length = 2 + 2 * bs.length := by
  show (utf8EncodeList ('0' :: 'x' :: hexChars bs)).length = _
  rw [utf8EncodeList_ascii ('0' :: 'x' :: hexChars bs) (by
    intro c hc
    rcases List.mem_cons.mp hc with rfl | hc
    · decide
    · rcases List.mem_cons.mp hc with rfl | hc
      · decide
      · exact hexChars_ascii bs c hc)]
  simp [hexChars_length]
  omega

theorem eip191Payload_length (bs : List Nat) :
    (CryptoUtils.eip191Payload bs).length =
      26 + (utf8Encode (toString bs.length)).length + bs.length := by
  have hpre : (utf8Encode "\x19Ethereum Signed Message:\n").length = 26 := by decide
  simp [CryptoUtils.eip191Payload, hpre]
  omega

theorem toString_utf8_length_le (n : Nat) (h : n ≤ 32) :
    (utf8Encode (toString n)).length ≤ 2 := by
  interval_cases n <;> decide

theorem dropTrailingZeros_concat (l : List Nat) (x : Nat) (hx : x ≠ 0) :
    ((l ++ [x]).reverse.dropWhile (· == 0)).reverse = l ++ [x] := by
  rw [List.reverse_append]
  simp only [List.reverse_cons, List.reverse_nil, List.nil_append, List.singleton_append]
  rw [List.dropWhile_cons]
  simp only [beq_iff_eq, if_neg hx]
  simp

theorem xorKeyFrom_length (key : List Nat) : ∀ (i : Nat) (bs : List Nat),
    (CryptoUtils.xorKeyFrom key i bs).length = bs.length := by
  intro i bs
  induction bs generalizing i with
  | nil => simp [CryptoUtils.xorKeyFrom]
  | cons b rest ih => simp [CryptoUtils.xorKeyFrom, ih]

theorem xorKeyFrom_involution (key : List Nat) : ∀ (i : Nat) (bs : List Nat),
    CryptoUtils.xorKeyFrom key i (CryptoUtils.xorKeyFrom key i bs) = bs := by
  intro i bs
  induction bs generalizing i with
  | nil => simp [CryptoUtils.xorKeyFrom]
  | cons b rest ih =>
    simp only [CryptoUtils.xorKeyFrom, List.cons.injEq]
    exact ⟨Nat.xor_cancel_right _ _, ih (i + 1)⟩

theorem keyByteAt_lt (key : List Nat) (hk : ∀ b ∈ key, b < 256) (i : Nat) :
    CryptoUtils.keyByteAt key i < 256 := by
  unfold CryptoUtils.keyByteAt
  cases hidx : key[i % key.length]? with
  | none => simp
  | some v =>
    have : v ∈ key := List.getElem?_mem hidx
    simpa using hk v this

theorem xorKeyFrom_mem_lt (key : List Nat) (hk : ∀ b ∈ key, b < 256) :
    ∀ (i : Nat) (bs : List Nat), (∀ b ∈ bs, b < 256) →
    ∀ b ∈ CryptoUtils.xorKeyFrom key i bs, b < 256 := by
  intro i bs
  induction bs generalizing i with
  | nil => intro _ b hb; simp [CryptoUtils.xorKeyFrom] at hb
  | cons x rest ih =>
    intro hbs b hb
    simp only [CryptoUtils.xorKeyFrom, List.mem_cons] at hb
    rcases hb with rfl | hb
    · have hx : x < 256 := hbs x (by simp)
      have hkey := keyByteAt_lt key hk i
      have : x < 2 ^ 8 := hx
      have : CryptoUtils.keyByteAt key i < 2 ^ 8 := hkey
      exact Nat.xor_lt_two_pow (n := 8) hx hkey
    · exact ih (i + 1) (fun y hy => hbs y (by simp [hy])) b hb

theorem keyStreamOf_mem_lt (key : String) : ∀ b ∈ keyStreamOf key, b < 256 := by
  intro b hb
  exact bytesOfNatBE_mem_lt hb

theorem checkedCall_eq (c : EACCClient) (call : OutboundCall) :
    (checkConnection c).map (fun _ => [call]) =
      (if c.signer.isSome then Except.ok [call] else Except.error ClientError.notConnected) := by
  cases hs : c.signer <;> simp [checkConnection, hs, Except.map]

/-! ## Helper facts about the signature-hash pipeline -/

theorem createJobSignatureHash_eq (e j : Nat) (he : e < 2 ^ 256) (hj : j < 2 ^ 256) :
    CryptoUtils.createJobSignatureHash e j =
      .ok (hexlify (keccak256 (beBytes32 e ++ beBytes32 j))) := by
  have he' : e < 115792089237316195423570985008687907853269984665640564039457584007913129639936 := he
  have hj' : j < 115792089237316195423570985008687907853269984665640564039457584007913129639936 := hj
  simp [CryptoUtils.createJobSignatureHash, CryptoUtils.createJobSignatureHashBytes,
    CryptoUtils.solidityPackedKeccak256, CryptoUtils.solidityPackedUint256,
    CryptoUtils.packUint256, he, hj, he', hj', Except.map, bind, Except.bind]

theorem createJobSignaturePayload_eq (e j : Nat) (he : e < 2 ^ 256) (hj : j < 2 ^ 256) :
    CryptoUtils.createJobSignaturePayload e j =
      .ok (CryptoUtils.eip191Payload
        (utf8Encode (hexlify (keccak256 (beBytes32 e ++ beBytes32 j))))) := by
  simp [CryptoUtils.createJobSignaturePayload, createJobSignatureHash_eq e j he hj, Except.map]

theorem signJobTakingPayload_eq (e j : Nat) (he : e < 2 ^ 256) (hj : j < 2 ^ 256) :
    CryptoUtils.signJobTakingPayload e j =
      .ok (CryptoUtils.eip191Payload
        (bytesOfNatBE (natOfBytesBE (keccak256 (beBytes32 e ++ beBytes32 j))))) := by
  have harr := toBeArray_hexlify_strip (keccak256 (beBytes32 e ++ beBytes32 j))
    (keccak256_ne_nil _) (fun b hb => keccak256_mem_lt hb)
  simp [CryptoUtils.signJobTakingPayload, createJobSignatureHash_eq e j he hj, harr,
    bind, Except.bind]

/-- C1: for every eventsLength and jobId (as `uint256` values), the `Take`
signature payload computed by `CryptoUtils.createJobSignatureHash` is the
keccak-256 of the solidity-packed pair, eventsLength first. -/
theorem claim1_createJobSignatureHash (e j : Nat) (he : e < 2 ^ 256) (hj : j < 2 ^ 256) :
    CryptoUtils.createJobSignatureHash e j =
      .ok (hexlify (keccak256 (beBytes32 e ++ beBytes32 j))) :=
  createJobSignatureHash_eq e j he hj

theorem claim1_createJobSignatureHash_witness :
    (0 : Nat) < 2 ^ 256 ∧ (1 : Nat) < 2 ^ 256 ∧
    CryptoUtils.createJobSignatureHash 0 1 =
      .ok (hexlify (keccak256 (beBytes32 0 ++ beBytes32 1))) :=
  ⟨by norm_num, by norm_num,
   claim1_createJobSignatureHash 0 1 (by norm_num) (by norm_num)⟩

/-- C3 counterexample: at eventsLength 0, jobId 0, and the identity
signer, `EACCClient.createJobSignature` and `CryptoUtils.signJobTaking`
produce different signatures: the client path signs the hex string of
the hash, the utils path signs its raw bytes. -/
theorem claim3_counterexample :
    CryptoUtils.clientCreateJobSignature (fun bs => bs) 0 0 ≠
      CryptoUtils.signJobTaking (fun bs => bs) 0 0 := by
  intro h
  exact absurd (congrArg Except.toOption h) (by decide)

/-- C3 amended: the two signing paths hand the signer different EIP-191
payloads: `createJobSignature` wraps the 66-character hex string of the
hash, `signJobTaking` wraps its (zero-stripped) raw bytes, and the two
payloads are never equal. -/
theorem claim3_amended (e j : Nat) (he : e < 2 ^ 256) (hj : j < 2 ^ 256) :
    CryptoUtils.createJobSignaturePayload e j ≠ CryptoUtils.signJobTakingPayload e j := by
  intro heq
  rw [createJobSignaturePayload_eq e j he hj, signJobTakingPayload_eq e j he hj] at heq
  have hlists := Except.ok.inj heq
  have hlen := congrArg List.length hlists
  rw [eip191Payload_length, eip191Payload_length] at hlen
  rw [utf8Encode_hexlify_length, keccak256_length] at hlen
  have h66 : (utf8Encode (toString (2 + 2 * 32))).length = 2 := by decide
  rw [h66] at hlen
  have hble : (bytesOfNatBE (natOfBytesBE (keccak256 (beBytes32 e ++ beBytes32 j)))).length ≤ 32 := by
    apply bytesOfNatBE_length_le 32
    have := natOfBytesBE_lt (keccak256 (beBytes32 e ++ beBytes32 j))
      (fun b hb => keccak256_mem_lt hb)
    rwa [keccak256_length] at this
  have hsle := toString_utf8_length_le
    (bytesOfNatBE (natOfBytesBE (keccak256 (beBytes32 e ++ beBytes32 j)))).length hble
  omega

theorem claim3_amended_witness :
    (0 : Nat) < 2 ^ 256 ∧ (0 : Nat) < 2 ^ 256 ∧
    CryptoUtils.createJobSignaturePayload 0 0 ≠ CryptoUtils.signJobTakingPayload 0 0 :=
  ⟨by norm_num, by norm_num, claim3_amended 0 0 (by norm_num) (by norm_num)⟩

/-! ## Lemmas about the IPFS hash validity alphabet -/

theorem isBase58Char_bounds {c : Char} (h : IPFSUtils.isBase58Char c = true) :
    0 < c.toNat ∧ c.toNat < 128 := by
  simp only [IPFSUtils.isBase58Char, Bool.or_eq_true, Bool.and_eq_true, decide_eq_true_eq] at h
  omega

theorem isBase32Char_bounds {c : Char} (h : IPFSUtils.isBase32Char c = true) :
    0 < c.toNat ∧ c.toNat < 128 := by
  simp only [IPFSUtils.isBase32Char, Bool.or_eq_true, Bool.and_eq_true, decide_eq_true_eq] at h
  omega

theorem isValidIPFSHash_facts (h : String) (hv : IPFSUtils.isValidIPFSHash h = true) :
    (h.data.length = 46 ∨ h.data.length = 59) ∧ ∀ c ∈ h.data, 0 < c.toNat ∧ c.toNat < 128 := by
  rcases hdata : h.data with _ | ⟨c1, tail⟩
  · simp [IPFSUtils.isValidIPFSHash, hdata] at hv
  rcases tail with _ | ⟨c2, rest⟩
  · simp [IPFSUtils.isValidIPFSHash, hdata] at hv
  simp only [IPFSUtils.isValidIPFSHash, hdata, Bool.or_eq_true, Bool.and_eq_true,
    decide_eq_true_eq, List.all_eq_true, List.length_cons] at hv
  rcases hv with (⟨⟨⟨hq, hm⟩, hlen44⟩, hall⟩ | ⟨hlen59, hall⟩) | ⟨⟨hb, hlen58⟩, hall⟩
  · subst hq; subst hm
    refine ⟨by simp only [List.length_cons]; omega, ?_⟩
    intro c hc
    rcases List.mem_cons.mp hc with rfl | hc
    · decide
    rcases List.mem_cons.mp hc with rfl | hc
    · decide
    · exact isBase58Char_bounds (hall c hc)
  · refine ⟨by simp only [List.length_cons]; omega, ?_⟩
    intro c hc
    exact isBase32Char_bounds (hall c hc)
  · subst hb
    refine ⟨by simp only [List.length_cons]; omega, ?_⟩
    intro c hc
    rcases List.mem_cons.mp hc with rfl | hc
    · decide
    · exact isBase32Char_bounds (hall c (by simpa using hc))

/-- C6 counterexample: the repository's own test hash (a valid CIDv0)
does not survive the bytes32 round trip; it comes back truncated to 31
characters. -/
theorem claim6_counterexample :
    IPFSUtils.isValidIPFSHash "QmYwAPJzv5CZsnA625s3Xf2nemtYgPpHdWEz79ojWnPbdG" = true ∧
    (IPFSUtils.hashToBytes32 "QmYwAPJzv5CZsnA625s3Xf2nemtYgPpHdWEz79ojWnPbdG").map
        IPFSUtils.bytes32ToHash ≠
      .ok "QmYwAPJzv5CZsnA625s3Xf2nemtYgPpHdWEz79ojWnPbdG" := by
  constructor
  · decide
  · decide

/-- C6 amended: for every valid IPFS content hash, converting to the
on-chain bytes32 form and back yields exactly the first 31 characters of
the hash, never the hash itself (every valid hash is 46 or 59 characters
long, so the round trip is a proper truncation). -/
theorem claim6_amended (h : String) (hv : IPFSUtils.isValidIPFSHash h = true) :
    (IPFSUtils.hashToBytes32 h).map IPFSUtils.bytes32ToHash =
      .ok (IPFSUtils.strSlice31 h) ∧ IPFSUtils.strSlice31 h ≠ h := by
  obtain ⟨hlen, hchars⟩ := isValidIPFSHash_facts h hv
  have hlen31 : (h.data.take 31).length = 31 := by
    rw [List.length_take]; omega
  have hascii : ∀ c ∈ h.data.take 31, c.toNat < 128 :=
    fun c hc => (hchars c (List.mem_of_mem_take hc)).2
  have hposc : ∀ c ∈ h.data.take 31, 0 < c.toNat :=
    fun c hc => (hchars c (List.mem_of_mem_take hc)).1
  have hbytes : utf8Encode (IPFSUtils.strSlice31 h) = (h.data.take 31).map Char.toNat := by
    show utf8EncodeList (h.data.take 31) = _
    exact utf8EncodeList_ascii _ hascii
  have hblen : ((h.data.take 31).map Char.toNat).length = 31 := by
    rw [List.length_map]; exact hlen31
  have henc : IPFSUtils.encodeBytes32String (IPFSUtils.strSlice31 h) =
      .ok ((h.data.take 31).map Char.toNat ++ [0]) := by
    simp only [IPFSUtils.encodeBytes32String, hbytes, hblen]
    rw [if_neg (by omega)]
    rfl
  have hh2b : IPFSUtils.hashToBytes32 h =
      .ok ((h.data.take 31).map Char.toNat ++ [0]) := by
    unfold IPFSUtils.hashToBytes32
    split
    · simp only [IPFSUtils.base58ToBuffer]
      exact henc
    · exact henc
  have hidx : (((h.data.take 31).map Char.toNat ++ [0])[31]?) = some 0 := by
    have := List.getElem?_concat_length ((h.data.take 31).map Char.toNat) 0
    rwa [hblen] at this
  obtain ⟨front, clast, hsplit⟩ : ∃ front clast, h.data.take 31 = front ++ [clast] := by
    rcases List.eq_nil_or_concat' (h.data.take 31) with hnil | ⟨f, a, hfa⟩
    · rw [hnil] at hlen31; simp at hlen31
    · exact ⟨f, a, hfa⟩
  have hclast_pos : 0 < clast.toNat := hposc clast (by rw [hsplit]; simp)
  have hmap : (h.data.take 31).map Char.toNat = front.map Char.toNat ++ [clast.toNat] := by
    rw [hsplit]; simp
  have hdrop : ((((h.data.take 31).map Char.toNat).reverse.dropWhile (· == 0)).reverse) =
      (h.data.take 31).map Char.toNat := by
    rw [hmap]
    exact dropTrailingZeros_concat (front.map Char.toNat) clast.toNat hclast_pos.ne'
  have hdec : IPFSUtils.decodeBytes32String ((h.data.take 31).map Char.toNat ++ [0]) =
      .ok (IPFSUtils.strSlice31 h) := by
    have hc1 : ¬(((h.data.take 31).map Char.toNat ++ [0]).length ≠ 32) := by
      simp only [ne_eq, List.length_append, hblen, List.length_singleton]
      exact not_not_intro trivial
    have hc2 : ¬(((((h.data.take 31).map Char.toNat ++ [0])[31]?).getD 0) ≠ 0) := by
      rw [hidx]
      simp
    unfold IPFSUtils.decodeBytes32String
    rw [if_neg hc1, if_neg hc2]
    rw [List.take_left' hblen, hdrop, ← hbytes]
    rw [utf8Decode_utf8Encode (IPFSUtils.strSlice31 h)]
  have hpos31 : (IPFSUtils.strSlice31 h).data.length > 0 := by
    show (h.data.take 31).length > 0
    omega
  have hout : IPFSUtils.bytes32ToHash ((h.data.take 31).map Char.toNat ++ [0]) =
      IPFSUtils.strSlice31 h := by
    unfold IPFSUtils.bytes32ToHash
    rw [hdec]
    simp only [hpos31, if_true]
  constructor
  · rw [hh2b, Except.map, hout]
  · intro heq
    have hlens := congrArg (fun s : String => s.data.length) heq
    simp only [IPFSUtils.strSlice31, hlen31] at hlens
    omega

theorem claim6_amended_witness :
    IPFSUtils.isValidIPFSHash "QmYjtig7VJQ6XsnUjqqJvj7QaMcCAwtrgNdahSiFofrE7o" = true ∧
    ((IPFSUtils.hashToBytes32 "QmYjtig7VJQ6XsnUjqqJvj7QaMcCAwtrgNdahSiFofrE7o").map
        IPFSUtils.bytes32ToHash =
      .ok (IPFSUtils.strSlice31 "QmYjtig7VJQ6XsnUjqqJvj7QaMcCAwtrgNdahSiFofrE7o") ∧
    IPFSUtils.strSlice31 "QmYjtig7VJQ6XsnUjqqJvj7QaMcCAwtrgNdahSiFofrE7o" ≠
      "QmYjtig7VJQ6XsnUjqqJvj7QaMcCAwtrgNdahSiFofrE7o") :=
  ⟨by decide, claim6_amended "QmYjtig7VJQ6XsnUjqqJvj7QaMcCAwtrgNdahSiFofrE7o" (by decide)⟩


/-! ## C10: the XOR encrypt/decrypt round trip -/

theorem toBeArray_keccak256Str (key : String) :
    toBeArray (CryptoUtils.keccak256 key) = .ok (keyStreamOf key) := by
  show toBeArray (hexlify (keccak256 (utf8Encode key))) = _
  exact toBeArray_hexlify_strip _ (keccak256_ne_nil _) (fun b hb => keccak256_mem_lt hb)

/-- C10 counterexample: encrypting the one-character string `":"` under
key `"a"` gives ciphertext `0x00`; `toBeArray` in `simpleDecrypt` strips
the level zero byte and decryption returns `""`, not `":"`. -/
theorem claim10_counterexample :
    (CryptoUtils.simpleEncrypt ":" "a").bind (fun enc => CryptoUtils.simpleDecrypt enc "a") ≠
      .ok ":" := by
  decide

/-- C10 amended: the round trip holds whenever the plaintext is nonempty
and its first ciphertext byte is nonzero, i.e. the first UTF-8 byte of
the data differs from the first byte of the key stream (otherwise
`toBeArray` silently drops leading zero ciphertext bytes). -/
theorem claim10_amended (data key enc : String)
    (henc : CryptoUtils.simpleEncrypt data key = .ok enc)
    (hne : utf8Encode data ≠ [])
    (hhead : (utf8Encode data).headD 0 ^^^ CryptoUtils.keyByteAt (keyStreamOf key) 0 ≠ 0) :
    CryptoUtils.simpleDecrypt enc key = .ok data := by
  have hks := toBeArray_keccak256Str key
  have hform : CryptoUtils.simpleEncrypt data key =
      .ok (hexlify (CryptoUtils.xorKeyFrom (keyStreamOf key) 0 (utf8Encode data))) := by
    simp [CryptoUtils.simpleEncrypt, hks, bind, Except.bind]
  rw [hform] at henc
  have henc' : enc = hexlify (CryptoUtils.xorKeyFrom (keyStreamOf key) 0 (utf8Encode data)) :=
    (Except.ok.inj henc).symm
  have hElen : (CryptoUtils.xorKeyFrom (keyStreamOf key) 0 (utf8Encode data)).length =
      (utf8Encode data).length := xorKeyFrom_length _ 0 _
  have hEne : CryptoUtils.xorKeyFrom (keyStreamOf key) 0 (utf8Encode data) ≠ [] := by
    intro hcontr
    apply hne
    rw [hcontr] at hElen
    exact (List.length_eq_zero.mp hElen.symm)
  have hEhead : (CryptoUtils.xorKeyFrom (keyStreamOf key) 0 (utf8Encode data)).headD 0 ≠ 0 := by
    cases hdata : utf8Encode data with
    | nil => exact absurd hdata hne
    | cons d0 rest =>
      rw [hdata] at hhead
      simp only [CryptoUtils.xorKeyFrom, List.headD_cons] at hhead ⊢
      exact hhead
  have hElt : ∀ b ∈ CryptoUtils.xorKeyFrom (keyStreamOf key) 0 (utf8Encode data), b < 256 :=
    xorKeyFrom_mem_lt _ (keyStreamOf_mem_lt key) 0 _ (fun b hb => utf8EncodeList_mem_lt hb)
  have hinv : CryptoUtils.xorKeyFrom (keyStreamOf key) 0
      (CryptoUtils.xorKeyFrom (keyStreamOf key) 0 (utf8Encode data)) = utf8Encode data :=
    xorKeyFrom_involution _ 0 _
  rw [henc']
  simp [CryptoUtils.simpleDecrypt, toBeArray_hexlify _ hEne hEhead hElt, hks, bind, Except.bind,
    hinv, utf8Decode_utf8Encode data]

theorem claim10_amended_witness :
    CryptoUtils.simpleEncrypt "hello" "a" = .ok "0x52a7497ae2" ∧
    utf8Encode "hello" ≠ [] ∧
    (utf8Encode "hello").headD 0 ^^^ CryptoUtils.keyByteAt (keyStreamOf "a") 0 ≠ 0 ∧
    CryptoUtils.simpleDecrypt "0x52a7497ae2" "a" = .ok "hello" :=
  ⟨by decide, by decide, by decide,
   claim10_amended "hello" "a" "0x52a7497ae2" (by decide) (by decide) (by decide)⟩

/-! ## C2, C5, C8: the spec-modelled lifecycle -/

/-- C2 (spec-modelled): on a take-eligible job (open, caller not the
creator, whitelist satisfied), a signature computed against an
events-length different from the job's current events-length is rejected
as `StaleSignature`. -/
theorem claim2_staleSignature (j : JobLifecycle.MJob) (caller : Nat)
    (sig : JobLifecycle.TakeSignature)
    (hopen : j.state = JobLifecycle.JState.Open) (hnc : caller ≠ j.creator)
    (hwl : j.whitelistWorkers = true → j.whitelist.contains caller = true)
    (hstale : sig.signedEventsLength ≠ j.eventsLength) :
    JobLifecycle.takeJob j caller sig = .error .staleSignature := by
  unfold JobLifecycle.takeJob
  rw [if_neg (by simp [hopen])]
  rw [if_neg hnc]
  rw [if_neg (by
    cases hw : j.whitelistWorkers
    · simp [hw]
    · simp only [hw, hwl hw]
      decide)]
  rw [if_pos hstale]

theorem claim2_staleSignature_witness :
    JobLifecycle.sampleOpenJob.state = JobLifecycle.JState.Open ∧
    (7 : Nat) ≠ JobLifecycle.sampleOpenJob.creator ∧
    (JobLifecycle.sampleOpenJob.whitelistWorkers = true →
      JobLifecycle.sampleOpenJob.whitelist.contains 7 = true) ∧
    (5 : Nat) ≠ JobLifecycle.sampleOpenJob.eventsLength ∧
    JobLifecycle.takeJob JobLifecycle.sampleOpenJob 7 ⟨5, 1, 7⟩ = .error .staleSignature :=
  ⟨rfl, by decide, by decide, by decide,
   claim2_staleSignature JobLifecycle.sampleOpenJob 7 ⟨5, 1, 7⟩ rfl (by decide) (by decide)
     (by decide)⟩

/-- C5 (spec-modelled): a `Take` on a job whose state is not `Open`
fails with `InvalidTransition` carrying the offending (state, event,
caller-role) triple; the failure is a returned error value, not a
crash. -/
theorem claim5_invalidTransition (j : JobLifecycle.MJob) (caller : Nat)
    (sig : JobLifecycle.TakeSignature) (hstate : j.state ≠ JobLifecycle.JState.Open) :
    JobLifecycle.takeJob j caller sig =
      .error (.invalidTransition j.state .take (JobLifecycle.roleOf j caller)) := by
  unfold JobLifecycle.takeJob
  rw [if_pos hstate]

theorem claim5_invalidTransition_witness :
    ({ JobLifecycle.sampleOpenJob with
        state := JobLifecycle.JState.Taken, worker := some 7 } : JobLifecycle.MJob).state ≠
      JobLifecycle.JState.Open ∧
    JobLifecycle.takeJob
        { JobLifecycle.sampleOpenJob with
            state := JobLifecycle.JState.Taken, worker := some 7 } 8 ⟨1, 1, 8⟩ =
      .error (.invalidTransition JobLifecycle.JState.Taken JobLifecycle.MEventKind.take
        (JobLifecycle.roleOf
          { JobLifecycle.sampleOpenJob with
              state := JobLifecycle.JState.Taken, worker := some 7 } 8)) :=
  ⟨by decide,
   claim5_invalidTransition
     { JobLifecycle.sampleOpenJob with
         state := JobLifecycle.JState.Taken, worker := some 7 } 8 ⟨1, 1, 8⟩ (by decide)⟩

/-- C8 (spec-modelled): deriving a job from its event sequence is a pure
fold: replaying the same sequence twice gives identical results, and the
result depends on the order of the sequence (a permuted log can derive a
different job). -/
theorem claim8_replay_deterministic :
    (∀ (events : List JobLifecycle.MEvent) (j : JobLifecycle.MJob),
      JobLifecycle.replayJob j events = JobLifecycle.replayJob j events) ∧
    (∃ e1 e2 : List JobLifecycle.MEvent, e1.Perm e2 ∧
      JobLifecycle.replayJob JobLifecycle.sampleOpenJob e1 ≠
        JobLifecycle.replayJob JobLifecycle.sampleOpenJob e2) := by
  refine ⟨fun _ _ => rfl,
    ⟨[JobLifecycle.MEvent.taken 7, JobLifecycle.MEvent.refunded],
     [JobLifecycle.MEvent.refunded, JobLifecycle.MEvent.taken 7], ?_, by decide⟩⟩
  exact List.Perm.swap _ _ _

/-! ## C9: network support and the constructor -/

/-- C9 counterexample: `chainId 0` is provided and unsupported, yet the
constructor succeeds, because the JavaScript truthiness test
`config.chainId && ...` treats `0` as absent. -/
theorem claim9_counterexample :
    (⟨"0xV2", "0xD1", some 0⟩ : EACCClientConfig).chainId = some 0 ∧
    isNetworkSupported 0 = false ∧
    mkEACCClient ⟨"0xV2", "0xD1", some 0⟩ = .ok ⟨⟨"0xV2", "0xD1", some 0⟩, none⟩ :=
  ⟨rfl, by decide, by decide⟩

/-- C9 amended: `isNetworkSupported` agrees with `getNetworkAddresses`
succeeding; the supported-network table holds exactly chain 42161; and
the constructor throws exactly when `config.chainId` is provided,
nonzero, and unsupported. -/
theorem claim9_amended :
    (∀ cid : Nat, isNetworkSupported cid = true ↔ ∃ a, getNetworkAddresses cid = .ok a) ∧
    SUPPORTED_NETWORKS = [42161] ∧
    (∀ config : EACCClientConfig,
      (∃ e, mkEACCClient config = .error e) ↔
      (∃ cid, config.chainId = some cid ∧ cid ≠ 0 ∧ isNetworkSupported cid = false)) := by
  refine ⟨?_, rfl, ?_⟩
  · intro cid
    by_cases hcid : cid = 42161
    · subst hcid
      simp [isNetworkSupported, SUPPORTED_NETWORKS, getNetworkAddresses, NETWORK_ADDRESSES]
    · simp [isNetworkSupported, SUPPORTED_NETWORKS, getNetworkAddresses, NETWORK_ADDRESSES, hcid]
  · intro config
    cases hcid : config.chainId with
    | none => simp [mkEACCClient, chainIdTruthy, hcid]
    | some cid =>
      by_cases h0 : cid = 0
      · subst h0
        simp [mkEACCClient, chainIdTruthy, hcid]
      · by_cases hsup : isNetworkSupported cid = true
        · simp [mkEACCClient, chainIdTruthy, hcid, h0, hsup]
        · simp [mkEACCClient, chainIdTruthy, hcid, h0, hsup, Bool.not_eq_true]

/-- C4: with no connected wallet signer, every state-changing client
operation throws the not-connected error, while the read accessors
succeed (issuing their read call) without any signer. -/
theorem claim4_connection_gating (c : EACCClient) (hc : c.signer = none)
    (pubkey name bio avatar addr s1 s2 s3 : String) (params : PublishJobParams)
    (jobId index limit rating buyerShare workerShare : Nat) :
    (EACCClient.registerUser c pubkey name bio avatar).out = .error .notConnected ∧
    (EACCClient.publishJob c params).out = .error .notConnected ∧
    (EACCClient.takeJob c jobId s1).out = .error .notConnected ∧
    (EACCClient.deliverResult c jobId s1).out = .error .notConnected ∧
    (EACCClient.approveResult c jobId rating s2).out = .error .notConnected ∧
    (EACCClient.refund c jobId).out = .error .notConnected ∧
    (EACCClient.dispute c jobId s1 s2).out = .error .notConnected ∧
    (EACCClient.arbitrate c jobId buyerShare workerShare s3).out = .error .notConnected ∧
    (EACCClient.refuseArbitration c jobId).out = .error .notConnected ∧
    (EACCClient.closeJob c jobId).out = .error .notConnected ∧
    (EACCClient.reopenJob c jobId).out = .error .notConnected ∧
    (EACCClient.postMessage c jobId s1 addr).out = .error .notConnected ∧
    (EACCClient.getJob c jobId).out = .ok [⟨.marketplaceV2, "getJob", [.nat jobId]⟩] ∧
    (EACCClient.getJobs c index limit).out = .ok [⟨.marketplaceData, "getJobs", [.nat index, .nat limit]⟩] ∧
    (EACCClient.getUser c addr).out = .ok [⟨.marketplaceData, "getUser", [.str addr]⟩] ∧
    (EACCClient.getArbitrator c addr).out = .ok [⟨.marketplaceData, "getArbitrator", [.str addr]⟩] ∧
    (EACCClient.getEvents c jobId index limit).out = .ok [⟨.marketplaceData, "getEvents", [.nat jobId, .nat index, .nat limit]⟩] := by
  simp [EACCClient.registerUser, EACCClient.publishJob, EACCClient.takeJob, EACCClient.deliverResult, EACCClient.approveResult, EACCClient.refund, EACCClient.dispute, EACCClient.arbitrate, EACCClient.refuseArbitration, EACCClient.closeJob, EACCClient.reopenJob, EACCClient.postMessage, EACCClient.getJob, EACCClient.getJobs, EACCClient.getUser, EACCClient.getArbitrator, EACCClient.getEvents, checkConnection, Except.map, hc]

theorem claim4_connection_gating_witness :
    (EACCClient.registerUser (⟨⟨"0xV2addr", "0xD1addr", none⟩, none⟩ : EACCClient) "pk" "Alice" "bio" "av").out = .error .notConnected ∧
    (EACCClient.publishJob (⟨⟨"0xV2addr", "0xD1addr", none⟩, none⟩ : EACCClient) (⟨"t", "ch", true, ["DS"], "0xT", 2, 86400, "GitHub", none, none⟩ : PublishJobParams)).out = .error .notConnected ∧
    (EACCClient.takeJob (⟨⟨"0xV2addr", "0xD1addr", none⟩, none⟩ : EACCClient) 1 "s1").out = .error .notConnected ∧
    (EACCClient.deliverResult (⟨⟨"0xV2addr", "0xD1addr", none⟩, none⟩ : EACCClient) 1 "s1").out = .error .notConnected ∧
    (EACCClient.approveResult (⟨⟨"0xV2addr", "0xD1addr", none⟩, none⟩ : EACCClient) 1 5 "s2").out = .error .notConnected ∧
    (EACCClient.refund (⟨⟨"0xV2addr", "0xD1addr", none⟩, none⟩ : EACCClient) 1).out = .error .notConnected ∧
    (EACCClient.dispute (⟨⟨"0xV2addr", "0xD1addr", none⟩, none⟩ : EACCClient) 1 "s1" "s2").out = .error .notConnected ∧
    (EACCClient.arbitrate (⟨⟨"0xV2addr", "0xD1addr", none⟩, none⟩ : EACCClient) 1 50 50 "s3").out = .error .notConnected ∧
    (EACCClient.refuseArbitration (⟨⟨"0xV2addr", "0xD1addr", none⟩, none⟩ : EACCClient) 1).out = .error .notConnected ∧
    (EACCClient.closeJob (⟨⟨"0xV2addr", "0xD1addr", none⟩, none⟩ : EACCClient) 1).out = .error .notConnected ∧
    (EACCClient.reopenJob (⟨⟨"0xV2addr", "0xD1addr", none⟩, none⟩ : EACCClient) 1).out = .error .notConnected ∧
    (EACCClient.postMessage (⟨⟨"0xV2addr", "0xD1addr", none⟩, none⟩ : EACCClient) 1 "s1" "0xAddr").out = .error .notConnected ∧
    (EACCClient.getJob (⟨⟨"0xV2addr", "0xD1addr", none⟩, none⟩ : EACCClient) 1).out = .ok [⟨.marketplaceV2, "getJob", [.nat 1]⟩] ∧
    (EACCClient.getJobs (⟨⟨"0xV2addr", "0xD1addr", none⟩, none⟩ : EACCClient) 0 10).out = .ok [⟨.marketplaceData, "getJobs", [.nat 0, .nat 10]⟩] ∧
    (EACCClient.getUser (⟨⟨"0xV2addr", "0xD1addr", none⟩, none⟩ : EACCClient) "0xAddr").out = .ok [⟨.marketplaceData, "getUser", [.str "0xAddr"]⟩] ∧
    (EACCClient.getArbitrator (⟨⟨"0xV2addr", "0xD1addr", none⟩, none⟩ : EACCClient) "0xAddr").out = .ok [⟨.marketplaceData, "getArbitrator", [.str "0xAddr"]⟩] ∧
    (EACCClient.getEvents (⟨⟨"0xV2addr", "0xD1addr", none⟩, none⟩ : EACCClient) 1 0 10).out = .ok [⟨.marketplaceData, "getEvents", [.nat 1, .nat 0, .nat 10]⟩] :=
  claim4_connection_gating (⟨⟨"0xV2addr", "0xD1addr", none⟩, none⟩ : EACCClient) rfl "pk" "Alice" "bio" "av" "0xAddr" "s1" "s2" "s3" (⟨"t", "ch", true, ["DS"], "0xT", 2, 86400, "GitHub", none, none⟩ : PublishJobParams) 1 0 10 5 50 50

/-- C7: every domain operation of the client leaves the client's own
state unchanged and, when connected, performs exactly one outbound call,
to a marketplace contract and never to the content store (when not
connected it performs none and throws). -/
theorem claim7_frame (c : EACCClient) (params : PublishJobParams) (uparams : UpdateJobParams)
    (jobId rating buyerShare workerShare : Nat)
    (worker resultHash reviewText sessionKey content reasonHash contentHash recipient
      signature : String)
    (value : Option Nat) (allowed disallowed : List String) :
    singleLedgerCall c (EACCClient.publishJob c params) ∧
    singleLedgerCall c (EACCClient.updateJob c uparams) ∧
    singleLedgerCall c (EACCClient.takeJob c jobId signature) ∧
    singleLedgerCall c (EACCClient.payStartJob c jobId worker value) ∧
    singleLedgerCall c (EACCClient.deliverResult c jobId resultHash) ∧
    singleLedgerCall c (EACCClient.approveResult c jobId rating reviewText) ∧
    singleLedgerCall c (EACCClient.refund c jobId) ∧
    singleLedgerCall c (EACCClient.review c jobId rating reviewText) ∧
    singleLedgerCall c (EACCClient.dispute c jobId sessionKey content) ∧
    singleLedgerCall c (EACCClient.arbitrate c jobId buyerShare workerShare reasonHash) ∧
    singleLedgerCall c (EACCClient.refuseArbitration c jobId) ∧
    singleLedgerCall c (EACCClient.closeJob c jobId) ∧
    singleLedgerCall c (EACCClient.reopenJob c jobId) ∧
    singleLedgerCall c (EACCClient.postMessage c jobId contentHash recipient) ∧
    singleLedgerCall c (EACCClient.withdrawCollateral c jobId) ∧
    singleLedgerCall c (EACCClient.updateJobWhitelist c jobId allowed disallowed) :=
  ⟨⟨rfl, ⟨.marketplaceV2, "publishJobPost", [.str params.title, .str params.contentHash, .bool params.multipleApplicants, .strList params.tags, .str params.token, .nat params.amount, .nat params.maxTime, .str params.deliveryMethod, .str (params.arbitrator.getD ZERO_ADDRESS), .strList (params.allowedWorkers.getD [])]⟩, by simp, checkedCall_eq c ⟨.marketplaceV2, "publishJobPost", [.str params.title, .str params.contentHash, .bool params.multipleApplicants, .strList params.tags, .str params.token, .nat params.amount, .nat params.maxTime, .str params.deliveryMethod, .str (params.arbitrator.getD ZERO_ADDRESS), .strList (params.allowedWorkers.getD [])]⟩⟩,
    ⟨rfl, ⟨.marketplaceV2, "updateJobPost", [.nat uparams.jobId, .str uparams.title, .str uparams.contentHash, .strList uparams.tags, .nat uparams.amount, .nat uparams.maxTime, .str (uparams.arbitrator.getD ZERO_ADDRESS), .bool uparams.whitelistWorkers]⟩, by simp, checkedCall_eq c ⟨.marketplaceV2, "updateJobPost", [.nat uparams.jobId, .str uparams.title, .str uparams.contentHash, .strList uparams.tags, .nat uparams.amount, .nat uparams.maxTime, .str (uparams.arbitrator.getD ZERO_ADDRESS), .bool uparams.whitelistWorkers]⟩⟩,
    ⟨rfl, ⟨.marketplaceV2, "takeJob", [.nat jobId, .str signature]⟩, by simp, checkedCall_eq c ⟨.marketplaceV2, "takeJob", [.nat jobId, .str signature]⟩⟩,
    ⟨rfl, ⟨.marketplaceV2, "payStartJob", [.nat jobId, .str worker, .optNat value]⟩, by simp, checkedCall_eq c ⟨.marketplaceV2, "payStartJob", [.nat jobId, .str worker, .optNat value]⟩⟩,
    ⟨rfl, ⟨.marketplaceV2, "deliverResult", [.nat jobId, .str resultHash]⟩, by simp, checkedCall_eq c ⟨.marketplaceV2, "deliverResult", [.nat jobId, .str resultHash]⟩⟩,
    ⟨rfl, ⟨.marketplaceV2, "approveResult", [.nat jobId, .nat rating, .str reviewText]⟩, by simp, checkedCall_eq c ⟨.marketplaceV2, "approveResult", [.nat jobId, .nat rating, .str reviewText]⟩⟩,
    ⟨rfl, ⟨.marketplaceV2, "refund", [.nat jobId]⟩, by simp, checkedCall_eq c ⟨.marketplaceV2, "refund", [.nat jobId]⟩⟩,
    ⟨rfl, ⟨.marketplaceV2, "review", [.nat jobId, .nat rating, .str reviewText]⟩, by simp, checkedCall_eq c ⟨.marketplaceV2, "review", [.nat jobId, .nat rating, .str reviewText]⟩⟩,
    ⟨rfl, ⟨.marketplaceV2, "dispute", [.nat jobId, .str sessionKey, .str content]⟩, by simp, checkedCall_eq c ⟨.marketplaceV2, "dispute", [.nat jobId, .str sessionKey, .str content]⟩⟩,
    ⟨rfl, ⟨.marketplaceV2, "arbitrate", [.nat jobId, .nat buyerShare, .nat workerShare, .str reasonHash]⟩, by simp, checkedCall_eq c ⟨.marketplaceV2, "arbitrate", [.nat jobId, .nat buyerShare, .nat workerShare, .str reasonHash]⟩⟩,
    ⟨rfl, ⟨.marketplaceV2, "refuseArbitration", [.nat jobId]⟩, by simp, checkedCall_eq c ⟨.marketplaceV2, "refuseArbitration", [.nat jobId]⟩⟩,
    ⟨rfl, ⟨.marketplaceV2, "closeJob", [.nat jobId]⟩, by simp, checkedCall_eq c ⟨.marketplaceV2, "closeJob", [.nat jobId]⟩⟩,
    ⟨rfl, ⟨.marketplaceV2, "reopenJob", [.nat jobId]⟩, by simp, checkedCall_eq c ⟨.marketplaceV2, "reopenJob", [.nat jobId]⟩⟩,
    ⟨rfl, ⟨.marketplaceV2, "postThreadMessage", [.nat jobId, .str contentHash, .str recipient]⟩, by simp, checkedCall_eq c ⟨.marketplaceV2, "postThreadMessage", [.nat jobId, .str contentHash, .str recipient]⟩⟩,
    ⟨rfl, ⟨.marketplaceV2, "withdrawCollateral", [.nat jobId]⟩, by simp, checkedCall_eq c ⟨.marketplaceV2, "withdrawCollateral", [.nat jobId]⟩⟩,
    ⟨rfl, ⟨.marketplaceV2, "updateJobWhitelist", [.nat jobId, .strList allowed, .strList disallowed]⟩, by simp, checkedCall_eq c ⟨.marketplaceV2, "updateJobWhitelist", [.nat jobId, .strList allowed, .strList disallowed]⟩⟩⟩

end EaccSpec
